import Mathlib

/-!
Verification development for the color-picker application
(src/laba1/color_picker.py).

The program is a PySide6 GUI with three editable panels (RGB, HSV, CMYK)
showing one color, a swatch and a dialog button.  The shallow embedding
below models:

* Python int() parsing of field text (ASCII strings, signs, underscores),
* the per-channel bounds descriptors built by int_bounds,
* the host toolkit color value QColor, faithfully following Qt 6
  qcolor.cpp: the internal representation is a color spec tag plus
  16-bit unsigned components; cross-model conversions use real
  arithmetic which we embed as exact rationals (Lean Rat in place of
  the C double; all concrete inputs used in counterexamples make the
  double computation exact, and the proved range bounds are robust),
* the BoundedLineEdit field state machine, the Valuer panels, and the
  Final coordinator with its signal ring, with Qt signal delivery in
  connection order and blockSignals suppression modeled explicitly.
-/

namespace ColorPicker

/-! ## Python int() parsing (the Bounds converter and the predicate inside
int_bounds).  Python int(str) strips surrounding whitespace, accepts an
optional single sign, and decimal digits with single underscores between
digits.  We model ASCII strings (the GUI inputs relevant here). -/

def isPyWS (ch : Char) : Bool :=
  ch = ' ' ∨ ch = '\t' ∨ ch = '\n' ∨ ch = '\r' ∨ ch = '\x0b' ∨ ch = '\x0c'

def digitVal (ch : Char) : Nat := ch.toNat - 48

/-- Digits after the first one: a single underscore may appear between
two digits. Accumulates the decimal value. -/
def pyDigitsAux : List Char → Nat → Option Nat
  | [], acc => some acc
  | '_' :: rest, acc =>
    match rest with
    | [] => none
    | ch :: rest2 =>
      if ch.isDigit then pyDigitsAux rest2 (acc * 10 + digitVal ch) else none
  | ch :: rest, acc =>
    if ch.isDigit then pyDigitsAux rest (acc * 10 + digitVal ch) else none

/-- A nonempty run of decimal digits (with legal underscores), as a value. -/
def pyDigits : List Char → Option Nat
  | [] => none
  | ch :: rest => if ch.isDigit then pyDigitsAux rest (digitVal ch) else none

/-- Python int(s): the value, or none when int() raises ValueError. -/
def pyParseInt (s : String) : Option Int :=
  let l := s.toList.dropWhile isPyWS
  let l := (l.reverse.dropWhile isPyWS).reverse
  match l with
  | '-' :: rest => (pyDigits rest).map (fun n => -(n : Int))
  | '+' :: rest => (pyDigits rest).map (fun n => (n : Int))
  | rest => (pyDigits rest).map (fun n => (n : Int))

/-- int_bounds(a, b) from the source: the returned bounder parses the
text with int() and checks a <= value <= b, catching the parse error. -/
def int_bounds (a b : Int) (val : String) : Bool :=
  match pyParseInt val with
  | some v => decide (a ≤ v ∧ v ≤ b)
  | none => false

/-! ## QColor (Qt 6 qcolor.cpp)

A QColor is a spec tag plus unsigned 16-bit components stored in a
union; we expose the four component slots uniformly (for Rgb:
red/green/blue/pad, for Hsv: hue/saturation/value/pad, for Cmyk:
cyan/magenta/yellow/black).  The hue slot stores hue*100 in 0..35999,
or 65535 (USHRT_MAX) for the achromatic sentinel. -/

inductive CSpec
  | invalid
  | rgbS
  | hsvS
  | cmykS
deriving DecidableEq, Repr

structure QColor where
  cspec : CSpec
  alpha : Nat
  c1 : Nat
  c2 : Nat
  c3 : Nat
  c4 : Nat
deriving DecidableEq, Repr

/-- An invalid QColor (the default constructor, also what invalidate()
produces): Invalid spec, alpha USHRT_MAX, zero components. -/
def qcInvalid : QColor := ⟨.invalid, 65535, 0, 0, 0, 0⟩

/-- qt_div_257_floor from qcolor.cpp ((x - (x >> 8)) >> 8, on uint). -/
def qt_div_257_floor (x : Nat) : Nat := (x - (x >>> 8)) >>> 8

/-- qt_div_257 from qcolor.cpp: maps a 16-bit component to 8 bits. -/
def qt_div_257 (x : Nat) : Nat := qt_div_257_floor (x + 128)

/-- The exact-real embedding of the C qreal (double) values flowing
through the QColor conversions: an unnormalized fraction.  All
denominators built below are positive.  Using explicit fractions (and
not Lean Rat) keeps every operation kernel-computable, so concrete
program runs can be settled by decide. -/
structure QReal where
  num : Int
  den : Int
deriving DecidableEq, Repr

namespace QReal

def ofNat (n : Nat) : QReal := ⟨(n : Int), 1⟩

instance (n : Nat) : OfNat QReal n := ⟨⟨(n : Int), 1⟩⟩

instance : Add QReal := ⟨fun x y => ⟨x.num * y.den + y.num * x.den, x.den * y.den⟩⟩

instance : Sub QReal := ⟨fun x y => ⟨x.num * y.den - y.num * x.den, x.den * y.den⟩⟩

instance : Mul QReal := ⟨fun x y => ⟨x.num * y.num, x.den * y.den⟩⟩

/-- Division; the sign of the divisor is folded into the numerator so
that denominators stay positive (divisors are never zero on the
executed paths). -/
instance : Div QReal := ⟨fun x y =>
  if 0 ≤ y.num then ⟨x.num * y.den, x.den * y.num⟩
  else ⟨-(x.num * y.den), -(x.den * y.num)⟩⟩

/-- Strict comparison, valid for positive denominators. -/
def ltB (x y : QReal) : Bool := decide (x.num * y.den < y.num * x.den)

/-- Equality test, valid for positive denominators; this is what
qFuzzyCompare / qFuzzyIsNull amount to on the quotients of 16-bit
integers appearing here (distinct values differ by at least 1/65535,
far above the 1e-12 fuzz). -/
def beq (x y : QReal) : Bool := decide (x.num * y.den = y.num * x.den)

/-- The rational value of a fraction (for the specification side). -/
def toRat (x : QReal) : ℚ := (x.num : ℚ) / (x.den : ℚ)

end QReal

/-- qRound on a nonnegative value: int(d + 0.5) = floor(x + 1/2),
clamped into Nat.  Every use in the conversions below has a
nonnegative argument. -/
def qRoundN (x : QReal) : Nat := ((2 * x.num + x.den).fdiv (2 * x.den)).toNat

/-- The Q_MAX_3 macro from qcolor.cpp: (a > b && a > c) ? a : (b > c ? b : c). -/
def qMax3 (a b c : QReal) : QReal :=
  if b.ltB a ∧ c.ltB a then a else if c.ltB b then b else c

/-- The Q_MIN_3 macro from qcolor.cpp. -/
def qMin3 (a b c : QReal) : QReal :=
  if a.ltB b ∧ a.ltB c then a else if b.ltB c then b else c

/-- qMin on two values. -/
def qMin2 (a b : QReal) : QReal := if a.ltB b then a else b

/-- QColor(r, g, b) / setRgb: out-of-range channels invalidate the
color, otherwise components are scaled by 0x101 = 257. -/
def mkRgb (r g b : Int) : QColor :=
  if 0 ≤ r ∧ r ≤ 255 ∧ 0 ≤ g ∧ g ≤ 255 ∧ 0 ≤ b ∧ b ≤ 255 then
    ⟨.rgbS, 65535, 257 * r.toNat, 257 * g.toNat, 257 * b.toNat, 0⟩
  else qcInvalid

/-- set_hsv(h, s, v) on a fresh QColor: h < -1 or an 8-bit check failure
invalidates; h = -1 is stored as the achromatic sentinel 65535,
otherwise (h % 360) * 100. -/
def mkHsv (h s v : Int) : QColor :=
  if h < -1 ∨ s < 0 ∨ 255 < s ∨ v < 0 ∨ 255 < v then qcInvalid
  else ⟨.hsvS, 65535, if h = -1 then 65535 else 100 * (h.toNat % 360),
        257 * s.toNat, 257 * v.toNat, 0⟩

/-- set_cmyk(c, m, y, k) on a fresh QColor. -/
def mkCmyk (c m y k : Int) : QColor :=
  if c < 0 ∨ 255 < c ∨ m < 0 ∨ 255 < m ∨ y < 0 ∨ 255 < y ∨ k < 0 ∨ 255 < k then
    qcInvalid
  else ⟨.cmykS, 65535, 257 * c.toNat, 257 * m.toNat, 257 * y.toNat, 257 * k.toNat⟩

/-- Rgb -> Hsv conversion on raw 16-bit components (QColor::toHsv).
qFuzzyIsNull / qFuzzyCompare on these quotients of integers by 65535
coincide with exact comparisons. -/
def rgbRawToHsv (alpha R G B : Nat) : QColor :=
  let r : QReal := QReal.ofNat R / 65535
  let g : QReal := QReal.ofNat G / 65535
  let b : QReal := QReal.ofNat B / 65535
  let maxv : QReal := qMax3 r g b
  let minv : QReal := qMin3 r g b
  let delta : QReal := maxv - minv
  let valueC : Nat := qRoundN (maxv * 65535)
  if delta.beq 0 then
    ⟨.hsvS, alpha, 65535, 0, valueC, 0⟩
  else
    let satC : Nat := qRoundN ((delta / maxv) * 65535)
    let hue0 : QReal :=
      if r.beq maxv then (g - b) / delta
      else if g.beq maxv then 2 + (b - r) / delta
      else 4 + (r - g) / delta
    let hue1 : QReal := hue0 * 60
    let hue2 : QReal := if hue1.ltB 0 then hue1 + 360 else hue1
    ⟨.hsvS, alpha, qRoundN (hue2 * 100), satC, valueC, 0⟩

/-- Hsv -> Rgb conversion on raw components (QColor::toRgb, Hsv case).
The stored hue is at most 35999 for every color the program builds, so
the i = int(h) dispatch always lands in 0..5; the final catch-all arm
mirrors the (unreachable) fall-through of the C switch. -/
def hsvRawToRgb (alpha H S V : Nat) : QColor :=
  if S = 0 ∨ H = 65535 then ⟨.rgbS, alpha, V, V, V, 0⟩
  else
    let h : QReal := if H = 36000 then 0 else QReal.ofNat H / 6000
    let i : Nat := if H = 36000 then 0 else H / 6000
    let s : QReal := QReal.ofNat S / 65535
    let v : QReal := QReal.ofNat V / 65535
    let f : QReal := h - QReal.ofNat i
    let p : QReal := v * (1 - s)
    let rgb : QReal × QReal × QReal :=
      if i % 2 = 1 then
        let q := v * (1 - s * f)
        if i = 1 then (q, v, p)
        else if i = 3 then (p, q, v)
        else if i = 5 then (v, p, q)
        else (0, 0, 0)
      else
        let t := v * (1 - s * (1 - f))
        if i = 0 then (v, t, p)
        else if i = 2 then (p, v, t)
        else if i = 4 then (t, p, v)
        else (0, 0, 0)
    ⟨.rgbS, alpha, qRoundN (rgb.1 * 65535), qRoundN (rgb.2.1 * 65535),
      qRoundN (rgb.2.2 * 65535), 0⟩

/-- Cmyk -> Rgb conversion on raw components (QColor::toRgb, Cmyk case). -/
def cmykRawToRgb (alpha C M Y K : Nat) : QColor :=
  let c : QReal := QReal.ofNat C / 65535
  let m : QReal := QReal.ofNat M / 65535
  let y : QReal := QReal.ofNat Y / 65535
  let k : QReal := QReal.ofNat K / 65535
  ⟨.rgbS, alpha,
    qRoundN ((1 - (c * (1 - k) + k)) * 65535),
    qRoundN ((1 - (m * (1 - k) + k)) * 65535),
    qRoundN ((1 - (y * (1 - k) + k)) * 65535), 0⟩

/-- Rgb -> Cmyk conversion on raw components (QColor::toCmyk): the
all-zero case avoids the division by zero, otherwise k = min of the
complements and the channels are rescaled by 1 - k. -/
def rgbRawToCmyk (alpha R G B : Nat) : QColor :=
  if R = 0 ∧ G = 0 ∧ B = 0 then ⟨.cmykS, alpha, 0, 0, 0, 65535⟩
  else
    let r : QReal := QReal.ofNat R / 65535
    let g : QReal := QReal.ofNat G / 65535
    let b : QReal := QReal.ofNat B / 65535
    let c0 : QReal := 1 - r
    let m0 : QReal := 1 - g
    let y0 : QReal := 1 - b
    let k : QReal := qMin2 c0 (qMin2 m0 y0)
    ⟨.cmykS, alpha,
      qRoundN (((c0 - k) / (1 - k)) * 65535),
      qRoundN (((m0 - k) / (1 - k)) * 65535),
      qRoundN (((y0 - k) / (1 - k)) * 65535),
      qRoundN (k * 65535)⟩

def QColor.toRgb (c : QColor) : QColor :=
  match c.cspec with
  | .invalid => c
  | .rgbS => c
  | .hsvS => hsvRawToRgb c.alpha c.c1 c.c2 c.c3
  | .cmykS => cmykRawToRgb c.alpha c.c1 c.c2 c.c3 c.c4

def QColor.toHsv (c : QColor) : QColor :=
  match c.cspec with
  | .invalid => c
  | .hsvS => c
  | .rgbS => rgbRawToHsv c.alpha c.c1 c.c2 c.c3
  | .cmykS =>
    let d := cmykRawToRgb c.alpha c.c1 c.c2 c.c3 c.c4
    rgbRawToHsv d.alpha d.c1 d.c2 d.c3

def QColor.toCmyk (c : QColor) : QColor :=
  match c.cspec with
  | .invalid => c
  | .cmykS => c
  | .rgbS => rgbRawToCmyk c.alpha c.c1 c.c2 c.c3
  | .hsvS =>
    let d := hsvRawToRgb c.alpha c.c1 c.c2 c.c3
    rgbRawToCmyk d.alpha d.c1 d.c2 d.c3

/-- QColor::red: converts to Rgb first unless the spec is Invalid or
Rgb, then divides the 16-bit component by 257 with rounding.  The
converted color always has Rgb spec, so reading its slot directly is
the same as the recursive call in the C source. -/
def QColor.red (c : QColor) : Nat :=
  match c.cspec with
  | .invalid | .rgbS => qt_div_257 c.c1
  | _ => qt_div_257 c.toRgb.c1

def QColor.green (c : QColor) : Nat :=
  match c.cspec with
  | .invalid | .rgbS => qt_div_257 c.c2
  | _ => qt_div_257 c.toRgb.c2

def QColor.blue (c : QColor) : Nat :=
  match c.cspec with
  | .invalid | .rgbS => qt_div_257 c.c3
  | _ => qt_div_257 c.toRgb.c3

/-- Reading the hue slot of an (Invalid or Hsv) color: -1 for the
achromatic sentinel, otherwise the stored hue divided by 100. -/
def hsvHueOf (c : QColor) : Int :=
  if c.c1 = 65535 then -1 else ((c.c1 / 100 : Nat) : Int)

/-- QColor::hue (= hsvHue). -/
def QColor.hue (c : QColor) : Int :=
  match c.cspec with
  | .invalid | .hsvS => hsvHueOf c
  | _ => hsvHueOf c.toHsv

/-- QColor::saturation (= hsvSaturation). -/
def QColor.saturation (c : QColor) : Nat :=
  match c.cspec with
  | .invalid | .hsvS => qt_div_257 c.c2
  | _ => qt_div_257 c.toHsv.c2

def QColor.value (c : QColor) : Nat :=
  match c.cspec with
  | .invalid | .hsvS => qt_div_257 c.c3
  | _ => qt_div_257 c.toHsv.c3

def QColor.cyan (c : QColor) : Nat :=
  match c.cspec with
  | .invalid | .cmykS => qt_div_257 c.c1
  | _ => qt_div_257 c.toCmyk.c1

def QColor.magenta (c : QColor) : Nat :=
  match c.cspec with
  | .invalid | .cmykS => qt_div_257 c.c2
  | _ => qt_div_257 c.toCmyk.c2

def QColor.yellow (c : QColor) : Nat :=
  match c.cspec with
  | .invalid | .cmykS => qt_div_257 c.c3
  | _ => qt_div_257 c.toCmyk.c3

def QColor.black (c : QColor) : Nat :=
  match c.cspec with
  | .invalid | .cmykS => qt_div_257 c.c4
  | _ => qt_div_257 c.toCmyk.c4

/-- QColor("magenta"): the named color, an Rgb color (255, 0, 255). -/
def magentaQ : QColor := mkRgb 255 0 255

-- Sanity checks of the QColor embedding on concrete values (all the
-- double-precision computations involved are exact).
example : magentaQ.hue = 300 := by decide
example : magentaQ.saturation = 255 := by decide
example : magentaQ.value = 255 := by decide
example : magentaQ.cyan = 0 ∧ magentaQ.magenta = 255 ∧ magentaQ.yellow = 0 ∧
    magentaQ.black = 0 := by decide
example : (mkRgb 255 255 255).hue = -1 := by decide
example : qcInvalid.red = 0 ∧ qcInvalid.hue = 0 ∧ qcInvalid.black = 0 := by decide
example : pyParseInt "-1" = some (-1) ∧ pyParseInt " 42 " = some 42 ∧
    pyParseInt "1_0" = some 10 ∧ pyParseInt "abc" = none ∧
    pyParseInt "" = none := by decide

/-! ## The color model variants (the Python dataclasses RGB, HSV, CMYK)

Each wraps a generic QColor by reading the host accessors, and
converts back through the host constructors/mutators.  Channel values
are Python ints. -/

structure RGB where
  red : Int
  green : Int
  blue : Int
deriving DecidableEq, Repr

def RGB.wrap_color (c : QColor) : RGB := ⟨(c.red : Int), (c.green : Int), (c.blue : Int)⟩

def RGB.get_color (x : RGB) : QColor := mkRgb x.red x.green x.blue

structure HSV where
  hue : Int
  saturation : Int
  value : Int
deriving DecidableEq, Repr

def HSV.wrap_color (c : QColor) : HSV := ⟨c.hue, (c.saturation : Int), (c.value : Int)⟩

def HSV.get_color (x : HSV) : QColor := mkHsv x.hue x.saturation x.value

structure CMYK where
  cyan : Int
  magenta : Int
  yellow : Int
  black : Int
deriving DecidableEq, Repr

def CMYK.wrap_color (c : QColor) : CMYK :=
  ⟨(c.cyan : Int), (c.magenta : Int), (c.yellow : Int), (c.black : Int)⟩

def CMYK.get_color (x : CMYK) : QColor := mkCmyk x.cyan x.magenta x.yellow x.black

/-- The three panel models, in the declaration order Final(RGB, HSV,
CMYK) uses. -/
inductive ModelType
  | RGBm
  | HSVm
  | CMYKm
deriving DecidableEq, Repr

/-- The (lo, hi) integer bounds of each dynamic channel of a model, in
get_dynamic order (the dataclass annotation order of the fields
without class-level values).  Every Bounds entry in the source is
int_bounds(lo, hi) with converter int and default 0. -/
def channelBounds : ModelType → List (Int × Int)
  | .RGBm => [(0, 255), (0, 255), (0, 255)]
  | .HSVm => [(0, 359), (0, 255), (0, 255)]
  | .CMYKm => [(0, 255), (0, 255), (0, 255), (0, 255)]

/-! ## BoundedLineEdit -/

inductive BorderStyle
  | unstyled
  | black
  | red
deriving DecidableEq, Repr

/-- The state of one BoundedLineEdit: its bounds descriptor, committed
numeric value, displayed text, validity flag, and border style. -/
structure Field where
  lo : Int
  hi : Int
  value : Int
  text : String
  bounded : Bool
  border : BorderStyle
deriving DecidableEq, Repr

/-- BoundedLineEdit.on_text_changed: re-run the bounder; on success
commit the converted value and restyle neutral, otherwise keep the
committed value and restyle red.  The converter int(txt) necessarily
succeeds when the bounder passed. -/
def Field.on_text_changed (f : Field) (txt : String) : Field :=
  if int_bounds f.lo f.hi txt then
    { f with bounded := true, value := (pyParseInt txt).getD f.value,
             border := .black }
  else
    { f with bounded := false, border := .red }

/-- Assigning the text property of a QLineEdit: textChanged is emitted
(and the connected slots run) only when the text actually changes.
The Bool reports whether the signal fired (the Valuer-level slot runs
on the same firing). -/
def Field.setText (f : Field) (s : String) : Field × Bool :=
  if s = f.text then (f, false)
  else (Field.on_text_changed { f with text := s } s, true)

def Field.get_value (f : Field) : Int := f.value

/-- BoundedLineEdit.set_value: assign the committed value, then
display it (which may fire textChanged). -/
def Field.set_value (f : Field) (v : Int) : Field × Bool :=
  Field.setText { f with value := v } (toString v)

/-- BoundedLineEdit.on_text_finished: push str(value) back into the
text (running on_text_changed when this changes the text), then force
the neutral border. -/
def Field.on_text_finished (f : Field) : Field × Bool :=
  let r := Field.setText f (toString f.value)
  ({ r.1 with border := .black }, r.2)

/-! ## Valuer (one model panel) -/

structure Valuer where
  model : ModelType
  fields : List Field
  blocked : Bool
deriving DecidableEq, Repr

/-- A fresh BoundedLineEdit for bounds (lo, hi): committed default 0,
bounded True, then the constructor assigns text "0" into the empty
line edit, firing the widget-level on_text_changed (the Valuer slot is
connected only after construction). -/
def initField (lh : Int × Int) : Field :=
  (Field.setText ⟨lh.1, lh.2, 0, "", true, .unstyled⟩ "0").1

/-- A fresh Valuer for a model class: one BoundedLineEdit per dynamic
channel, signals not blocked. -/
def Valuer.mk0 (m : ModelType) : Valuer :=
  ⟨m, (channelBounds m).map initField, false⟩

/-- Valuer.get_color: construct the variant from the committed field
values (in declared order) and convert to the generic color.  The
field-list shape is fixed per model by construction. -/
def Valuer.get_color (v : Valuer) : QColor :=
  match v.model, v.fields.map Field.get_value with
  | .RGBm, [r, g, b] => (RGB.mk r g b).get_color
  | .HSVm, [h, s, vv] => (HSV.mk h s vv).get_color
  | .CMYKm, [c, m, y, k] => (CMYK.mk c m y k).get_color
  | _, _ => qcInvalid

/-- The channel values of cls.wrap_color(color) in field order, as
Valuer.update_color writes them. -/
def wrapChannels (m : ModelType) (c : QColor) : List Int :=
  match m with
  | .RGBm =>
    [(RGB.wrap_color c).red, (RGB.wrap_color c).green, (RGB.wrap_color c).blue]
  | .HSVm =>
    [(HSV.wrap_color c).hue, (HSV.wrap_color c).saturation, (HSV.wrap_color c).value]
  | .CMYKm =>
    [(CMYK.wrap_color c).cyan, (CMYK.wrap_color c).magenta,
     (CMYK.wrap_color c).yellow, (CMYK.wrap_color c).black]

/-- Valuer._on_text_changed, run after the field's own slot on the
same textChanged firing: emit color_changed with the current
get_color, unless this Valuer's signals are blocked (blockSignals
suppresses the emission; the slot itself still runs). -/
def Valuer.afterFieldFired (v : Valuer) (fired : Bool) : Option QColor :=
  if fired ∧ ¬ v.blocked then some v.get_color else none

def Valuer.setField (v : Valuer) (k : Nat) (f : Field) : Valuer :=
  { v with fields := v.fields.set k f }

/-- One iteration of the update_color loop: edit.set_value(val) on
field k; the nested textChanged (if any) runs the field slot and then
_on_text_changed, whose emission is returned (none when blocked). -/
def Valuer.set_value_at (v : Valuer) (k : Nat) (val : Int) : Valuer × Option QColor :=
  match v.fields[k]? with
  | none => (v, none)
  | some f =>
    let r := Field.set_value f val
    let v2 := v.setField k r.1
    (v2, v2.afterFieldFired r.2)

/-- A user edit of field k to text t: the QLineEdit takes the new
text (emitting textChanged when it differs), the field revalidates,
then _on_text_changed emits the panel color unless blocked. -/
def Valuer.textInput (v : Valuer) (k : Nat) (t : String) : Valuer × Option QColor :=
  match v.fields[k]? with
  | none => (v, none)
  | some f =>
    let r := Field.setText f t
    let v2 := v.setField k r.1
    (v2, v2.afterFieldFired r.2)

/-- editingFinished on field k: the field's on_text_finished runs (the
Valuer's own editing-finished hook is commented out in the source);
its nested textChanged can still fire the panel emission. -/
def Valuer.finishAt (v : Valuer) (k : Nat) : Valuer × Option QColor :=
  match v.fields[k]? with
  | none => (v, none)
  | some f =>
    let r := Field.on_text_finished f
    let v2 := v.setField k r.1
    (v2, v2.afterFieldFired r.2)

/-- The update_color loop over the remaining channels, k the index of
the next field; collects whatever emissions escape. -/
def Valuer.setValues : Valuer → Nat → List Int → Valuer × List QColor
  | v, _, [] => (v, [])
  | v, k, val :: rest =>
    let r1 := v.set_value_at k val
    let r2 := Valuer.setValues r1.1 (k + 1) rest
    (r2.1, r1.2.toList ++ r2.2)

/-- Valuer.update_color: block own signals, write every channel of
wrap_color(color) through set_value, unblock.  Returns the emissions
that escaped (none, thanks to the blocking — proved below, not
assumed). -/
def Valuer.update_color (v : Valuer) (c : QColor) : Valuer × List QColor :=
  let r := Valuer.setValues { v with blocked := true } 0 (wrapChannels v.model c)
  ({ r.1 with blocked := false }, r.2)

/-! ## Final (the coordinator) and the synchronization ring -/

inductive PIdx
  | pRGB
  | pHSV
  | pCMYK
deriving DecidableEq, Repr

/-- The whole application state: the three panels, the recorded
current color, the swatch stylesheet, plus ghost instrumentation
(update_color invocation counts and received colors per panel) used
to state the propagation claims. -/
structure Sys where
  rgbP : Valuer
  hsvP : Valuer
  cmykP : Valuer
  color : QColor
  label : String
  counts : Nat × Nat × Nat
  recvs : List QColor × List QColor × List QColor
deriving DecidableEq, Repr

def Sys.panel (s : Sys) : PIdx → Valuer
  | .pRGB => s.rgbP
  | .pHSV => s.hsvP
  | .pCMYK => s.cmykP

def Sys.setPanel (s : Sys) (i : PIdx) (v : Valuer) : Sys :=
  match i with
  | .pRGB => { s with rgbP := v }
  | .pHSV => { s with hsvP := v }
  | .pCMYK => { s with cmykP := v }

def Sys.bumpGhost (s : Sys) (i : PIdx) (c : QColor) : Sys :=
  match i with
  | .pRGB =>
    { s with
      counts := (s.counts.1 + 1, s.counts.2.1, s.counts.2.2)
      recvs := (s.recvs.1 ++ [c], s.recvs.2.1, s.recvs.2.2) }
  | .pHSV =>
    { s with
      counts := (s.counts.1, s.counts.2.1 + 1, s.counts.2.2)
      recvs := (s.recvs.1, s.recvs.2.1 ++ [c], s.recvs.2.2) }
  | .pCMYK =>
    { s with
      counts := (s.counts.1, s.counts.2.1, s.counts.2.2 + 1)
      recvs := (s.recvs.1, s.recvs.2.1, s.recvs.2.2 ++ [c]) }

/-- The update_color slots connected to each panel's color_changed, in
connection order from Final.connect_models (the loop wires 0↔1 and
1↔2, then 2→0 and 0→2 close the ring; change_color_internally is
connected last). -/
def ringTargets : PIdx → PIdx × PIdx
  | .pRGB => (.pHSV, .pCMYK)
  | .pHSV => (.pRGB, .pCMYK)
  | .pCMYK => (.pHSV, .pRGB)

/-- One pending synchronous slot invocation. -/
inductive SigCall
  | upd (j : PIdx) (c : QColor)
  | notif (c : QColor)
deriving DecidableEq, Repr

/-- The slot calls triggered by panel i emitting color_changed(c). -/
def expandEmission (i : PIdx) (c : QColor) : List SigCall :=
  [.upd (ringTargets i).1 c, .upd (ringTargets i).2 c, .notif c]

/-- Final.change_label_color: the swatch stylesheet built from the
rgb components of the color. -/
def change_label_color_str (c : QColor) : String :=
  "border: 2px solid black;background-color: rgb(" ++ toString c.red ++ ", " ++
    toString c.green ++ ", " ++ toString c.blue ++ ");"

/-- Final.change_color_internally: record the color as current and
restyle the swatch. -/
def Sys.change_color_internally (s : Sys) (c : QColor) : Sys :=
  { s with color := c, label := change_label_color_str c }

/-- Run update_color on panel j (with ghost instrumentation); the
second component is the escaped emissions. -/
def Sys.applyUpdate (s : Sys) (j : PIdx) (c : QColor) : Sys × List QColor :=
  let r := (s.panel j).update_color c
  ((s.setPanel j r.1).bumpGhost j c, r.2)

/-- Synchronous Qt signal dispatch: process pending slot calls
depth-first in connection order.  Emissions escaping an update_color
would expand into further calls, so the recursion carries fuel; the
blocking discipline is what makes it terminate, and that is proved,
not assumed. -/
def dispatch : Nat → Sys → List SigCall → Option Sys
  | _, s, [] => some s
  | 0, _, _ :: _ => none
  | n + 1, s, .upd j c :: rest =>
    let r := s.applyUpdate j c
    dispatch n r.1 ((r.2.map (expandEmission j)).flatten ++ rest)
  | n + 1, s, .notif c :: rest =>
    dispatch n (s.change_color_internally c) rest

/-- A user edit of panel i, field k, to text t, followed by the full
synchronous propagation of the panel's change notification. -/
def Sys.userEdit (fuel : Nat) (s : Sys) (i : PIdx) (k : Nat) (t : String) : Option Sys :=
  let r := (s.panel i).textInput k t
  let s1 := s.setPanel i r.1
  match r.2 with
  | none => some s1
  | some c => dispatch fuel s1 (expandEmission i c)

/-- Edit completion (focus loss / return) on panel i, field k. -/
def Sys.userFinish (fuel : Nat) (s : Sys) (i : PIdx) (k : Nat) : Option Sys :=
  let r := (s.panel i).finishAt k
  let s1 := s.setPanel i r.1
  match r.2 with
  | none => some s1
  | some c => dispatch fuel s1 (expandEmission i c)

/-- Final.pick_color with the modal dialog outcome as input (the
dialog returns the chosen color, or an invalid QColor on cancel): the
result is pushed into every panel in models order and the swatch is
restyled from it — with no validity check and no update of
self.color. -/
def Sys.pick_color (fuel : Nat) (s : Sys) (dlg : QColor) : Option Sys :=
  let r1 := s.applyUpdate .pRGB dlg
  (dispatch fuel r1.1 ((r1.2.map (expandEmission .pRGB)).flatten)) >>= fun s1 =>
  let r2 := s1.applyUpdate .pHSV dlg
  (dispatch fuel r2.1 ((r2.2.map (expandEmission .pHSV)).flatten)) >>= fun s2 =>
  let r3 := s2.applyUpdate .pCMYK dlg
  (dispatch fuel r3.1 ((r3.2.map (expandEmission .pCMYK)).flatten)) >>= fun s3 =>
  some { s3 with label := change_label_color_str dlg }

/-- The state after the Final constructor: panels built and
update_color'd with the initial magenta before any connection exists
(so nothing can propagate), current color magenta, swatch styled from
it. -/
def initSys : Sys :=
  { rgbP := ((Valuer.mk0 .RGBm).update_color magentaQ).1
    hsvP := ((Valuer.mk0 .HSVm).update_color magentaQ).1
    cmykP := ((Valuer.mk0 .CMYKm).update_color magentaQ).1
    color := magentaQ
    label := change_label_color_str magentaQ
    counts := (0, 0, 0)
    recvs := ([], [], []) }

/-- The values QColorDialog.getColor can return: a color chosen on
the 8-bit RGB dialog, or the invalid color on cancel. -/
def DialogResult (c : QColor) : Prop :=
  c = qcInvalid ∨ ∃ r g b : Int,
    0 ≤ r ∧ r ≤ 255 ∧ 0 ≤ g ∧ g ≤ 255 ∧ 0 ≤ b ∧ b ≤ 255 ∧ c = mkRgb r g b

-- Sanity checks of the widget layer on concrete runs.
example : initSys.rgbP.fields.map Field.get_value = [255, 0, 255] := by decide
example : initSys.hsvP.fields.map Field.get_value = [300, 255, 255] := by decide
example : initSys.cmykP.fields.map Field.get_value = [0, 255, 0, 0] := by decide
example : initSys.rgbP.fields.map Field.text = ["255", "0", "255"] := by decide
example : initSys.hsvP.get_color = mkHsv 300 255 255 := by decide

/-! ## Semantics of QReal over the rationals

These lemmas interpret the fraction arithmetic in ℚ (all hypotheses
about denominators hold by construction on the executed paths). -/

namespace QReal

theorem toRat_ofNat (n : Nat) : (ofNat n).toRat = (n : ℚ) := by
  simp [ofNat, toRat]

theorem toRat_lit (n : Nat) : (OfNat.ofNat n : QReal).toRat = (n : ℚ) := by
  show ((⟨((n : Nat) : Int), 1⟩ : QReal)).toRat = _
  simp [toRat]

theorem add_def (x y : QReal) :
    x + y = ⟨x.num * y.den + y.num * x.den, x.den * y.den⟩ := rfl

theorem sub_def (x y : QReal) :
    x - y = ⟨x.num * y.den - y.num * x.den, x.den * y.den⟩ := rfl

theorem mul_def (x y : QReal) :
    x * y = ⟨x.num * y.num, x.den * y.den⟩ := rfl

theorem div_def (x y : QReal) :
    x / y = if 0 ≤ y.num then (⟨x.num * y.den, x.den * y.num⟩ : QReal)
      else ⟨-(x.num * y.den), -(x.den * y.num)⟩ := rfl

theorem toRat_add (x y : QReal) (hx : x.den ≠ 0) (hy : y.den ≠ 0) :
    (x + y).toRat = x.toRat + y.toRat := by
  have hx2 : (x.den : ℚ) ≠ 0 := Int.cast_ne_zero.mpr hx
  have hy2 : (y.den : ℚ) ≠ 0 := Int.cast_ne_zero.mpr hy
  rw [add_def]
  unfold toRat
  push_cast
  field_simp
  try ring

theorem toRat_sub (x y : QReal) (hx : x.den ≠ 0) (hy : y.den ≠ 0) :
    (x - y).toRat = x.toRat - y.toRat := by
  have hx2 : (x.den : ℚ) ≠ 0 := Int.cast_ne_zero.mpr hx
  have hy2 : (y.den : ℚ) ≠ 0 := Int.cast_ne_zero.mpr hy
  rw [sub_def]
  unfold toRat
  push_cast
  field_simp
  try ring

theorem toRat_mul (x y : QReal) : (x * y).toRat = x.toRat * y.toRat := by
  rw [mul_def]
  unfold toRat
  push_cast
  rw [div_mul_div_comm]

theorem toRat_div (x y : QReal) : (x / y).toRat = x.toRat / y.toRat := by
  rw [div_def]
  unfold toRat
  have key : ((x.num * y.den : ℤ) : ℚ) / ((x.den * y.num : ℤ) : ℚ) =
      (x.num : ℚ) / (x.den : ℚ) / ((y.num : ℚ) / (y.den : ℚ)) := by
    push_cast
    rw [div_div_eq_mul_div, ← div_div, mul_div_right_comm]
  by_cases h : 0 ≤ y.num
  · simp only [h, if_true]
    exact key
  · simp only [h, if_false]
    show ((-(x.num * y.den) : ℤ) : ℚ) / ((-(x.den * y.num) : ℤ) : ℚ) = _
    push_cast
    rw [neg_div_neg_eq]
    exact_mod_cast key

theorem ltB_iff (x y : QReal) (hx : 0 < x.den) (hy : 0 < y.den) :
    x.ltB y = true ↔ x.toRat < y.toRat := by
  have hx2 : (0 : ℚ) < (x.den : ℚ) := by exact_mod_cast hx
  have hy2 : (0 : ℚ) < (y.den : ℚ) := by exact_mod_cast hy
  unfold ltB toRat
  rw [decide_eq_true_iff, div_lt_div_iff₀ hx2 hy2]
  constructor
  · intro h
    exact_mod_cast h
  · intro h
    exact_mod_cast h

theorem beq_iff (x y : QReal) (hx : 0 < x.den) (hy : 0 < y.den) :
    x.beq y = true ↔ x.toRat = y.toRat := by
  have hx2 : (x.den : ℚ) ≠ 0 := by positivity
  have hy2 : (y.den : ℚ) ≠ 0 := by positivity
  unfold beq toRat
  rw [decide_eq_true_iff, div_eq_div_iff hx2 hy2]
  constructor
  · intro h
    exact_mod_cast h
  · intro h
    exact_mod_cast h

end QReal

/-- The value qRound computes, over ℚ: the floor of x + 1/2, clamped
to Nat (never negative on the executed paths). -/
theorem qRoundN_eq (x : QReal) (hd : 0 < x.den) :
    qRoundN x = (⌊x.toRat + 1 / 2⌋).toNat := by
  unfold qRoundN
  rw [Int.fdiv_eq_ediv _ (by omega)]
  have hden : ((2 * x.den).toNat : ℤ) = 2 * x.den := Int.toNat_of_nonneg (by omega)
  have h1 : (2 * x.num + x.den) / (2 * x.den) = ⌊((2 * x.num + x.den : ℤ) : ℚ) / ((2 * x.den).toNat : ℚ)⌋ := by
    rw [Rat.floor_intCast_div_natCast, hden]
  rw [h1]
  congr 2
  have hq : ((2 * x.den).toNat : ℚ) = 2 * (x.den : ℚ) := by
    exact_mod_cast congrArg (fun z : ℤ => (z : ℚ)) hden
  have hd2 : (x.den : ℚ) ≠ 0 := by positivity
  rw [hq]
  unfold QReal.toRat
  push_cast
  field_simp
  ring

/-! ## Arithmetic facts about the component maps -/

/-- The 16-to-8-bit map inverts the 257-scaling exactly. -/
theorem qt_div_257_mul (s : Nat) (h : s ≤ 255) : qt_div_257 (257 * s) = s := by
  unfold qt_div_257 qt_div_257_floor
  simp only [Nat.shiftRight_eq_div_pow]
  norm_num
  omega

/-- The 16-to-8-bit map lands in 0..255 on 16-bit inputs. -/
theorem qt_div_257_le (x : Nat) (h : x ≤ 65535) : qt_div_257 x ≤ 255 := by
  unfold qt_div_257 qt_div_257_floor
  simp only [Nat.shiftRight_eq_div_pow]
  norm_num
  omega

/-- Upper bound for qRound: the argument bounded by an integer bounds
the result by it. -/
theorem qRoundN_le (x : QReal) (hd : 0 < x.den) (n : Nat) (h : x.toRat ≤ (n : ℚ)) :
    qRoundN x ≤ n := by
  rw [qRoundN_eq x hd]
  have h2 : ⌊x.toRat + 1 / 2⌋ < (n : ℤ) + 1 := by
    rw [Int.floor_lt]
    push_cast
    linarith
  omega

/-- qRound of an exact integer value. -/
theorem qRoundN_exact (x : QReal) (hd : 0 < x.den) (n : Nat) (h : x.toRat = (n : ℚ)) :
    qRoundN x = n := by
  rw [qRoundN_eq x hd, h]
  have h3 : ⌊(n : ℚ) + 1 / 2⌋ = (n : ℤ) := by
    rw [Int.floor_eq_iff]
    constructor
    · push_cast
      linarith
    · push_cast
      linarith
  omega

/-- A positive value with positive denominator has positive numerator. -/
theorem QReal.num_pos (x : QReal) (hd : 0 < x.den) (h : 0 < x.toRat) : 0 < x.num := by
  by_contra hn
  have h1 : (x.num : ℚ) ≤ 0 := by exact_mod_cast not_lt.mp hn
  have h2 : (0 : ℚ) < (x.den : ℚ) := by exact_mod_cast hd
  have : x.toRat ≤ 0 := div_nonpos_of_nonpos_of_nonneg h1 (le_of_lt h2)
  linarith

/-- The rounded 16-bit value of gamma * a, where gamma = 257 * K / 255:
the common form of every rgb component the program ever converts to
HSV (8-bit rgb colors have K = 255; rgb components derived from 8-bit
cmyk colors have K = 255 - black).  Closed Nat form of
floor(257 * K * a / 255 + 1/2). -/
def gammaRound (K a : Nat) : Nat := (514 * K * a + 255) / 510

/-- 8-bit rgb components scale to gammaRound with K = 255. -/
theorem gammaRound_255 (a : Nat) : gammaRound 255 a = 257 * a := by
  unfold gammaRound
  omega

theorem gammaRound_mono (K : Nat) {a b : Nat} (h : a ≤ b) :
    gammaRound K a ≤ gammaRound K b := by
  unfold gammaRound
  have h2 : 514 * K * a ≤ 514 * K * b := Nat.mul_le_mul_left _ h
  omega

theorem gammaRound_le (K a : Nat) (ha : a ≤ 255) : gammaRound K a ≤ 257 * K := by
  have h1 : gammaRound K a ≤ gammaRound K 255 := gammaRound_mono K ha
  have h2 : gammaRound K 255 = 257 * K := by
    unfold gammaRound
    have h3 : 514 * K * 255 = 510 * (257 * K) := by ring
    omega
  omega

theorem gammaRound_zero (K : Nat) : gammaRound K 0 = 0 := by
  unfold gammaRound
  omega

theorem gammaRound_zero_left (a : Nat) : gammaRound 0 a = 0 := by
  unfold gammaRound
  omega

/-- Whenever two gammaRound values with the same K are distinct, their
gap is at least 514 * K / 1021 — the quantitative fact preventing the
hue computation from rounding up to 360 degrees. -/
theorem gammaRound_gap (K a b : Nat) (hK : 1 ≤ K)
    (h : gammaRound K b < gammaRound K a) :
    514 * K ≤ 1021 * (gammaRound K a - gammaRound K b) := by
  have hab : b < a := by
    by_contra hc
    exact absurd (gammaRound_mono K (not_lt.mp hc)) (not_le.mpr h)
  have key : 514 * K * b + 514 * K ≤ 514 * K * a := by
    have h1 : b + 1 ≤ a := hab
    calc 514 * K * b + 514 * K = 514 * K * (b + 1) := by ring
    _ ≤ 514 * K * a := Nat.mul_le_mul_left _ h1
  rcases Nat.eq_or_lt_of_le hK with h1 | h1
  · -- K = 1: the gap is at least 1 and 1021 >= 514
    have hK1 : K = 1 := h1.symm
    subst hK1
    omega
  · -- K >= 2
    have hK3 : 2 ≤ K := h1
    unfold gammaRound at h ⊢
    -- abbreviate the products; everything else is linear
    have h4 : 514 * K * b + 514 * 2 ≤ 514 * K * a := by
      have : 514 * 2 ≤ 514 * K := Nat.mul_le_mul_left _ hK3
      omega
    omega

/-! ## Structural helpers for the conversion analysis -/

namespace QReal

theorem toRat_mk (n d : Int) : (⟨n, d⟩ : QReal).toRat = (n : ℚ) / (d : ℚ) := rfl

theorem add_den (x y : QReal) : (x + y).den = x.den * y.den := rfl

theorem sub_den (x y : QReal) : (x - y).den = x.den * y.den := rfl

theorem mul_den (x y : QReal) : (x * y).den = x.den * y.den := rfl

theorem ofNat_den (n : Nat) : (ofNat n).den = 1 := rfl

theorem lit_den (n : Nat) : (OfNat.ofNat n : QReal).den = 1 := rfl

theorem lit_num (n : Nat) : (OfNat.ofNat n : QReal).num = (n : Int) := rfl

theorem div_den_of_pos (x y : QReal) (h : 0 < y.num) : (x / y).den = x.den * y.num := by
  rw [div_def, if_pos (le_of_lt h)]

/-- Dividing a Nat fraction by a literal gives the evident fraction. -/
theorem ofNat_div_lit (n m : Nat) :
    QReal.ofNat n / (OfNat.ofNat m : QReal) = ⟨(n : Int), (m : Int)⟩ := by
  have hnn : (0 : Int) ≤ (OfNat.ofNat m : QReal).num := by
    rw [QReal.lit_num]
    exact_mod_cast Nat.zero_le m
  rw [div_def, if_pos hnn]
  show (⟨(n : Int) * 1, 1 * (m : Int)⟩ : QReal) = _
  norm_num

/-- Reading ltB negatively, with positive denominators. -/
theorem ltB_false (x y : QReal) (hx : 0 < x.den) (hy : 0 < y.den)
    (h : ¬ x.ltB y = true) : y.toRat ≤ x.toRat :=
  not_lt.mp fun hcon => h ((QReal.ltB_iff x y hx hy).mpr hcon)

end QReal

theorem qMax3_cases (a b c : QReal) : qMax3 a b c = a ∨ qMax3 a b c = b ∨ qMax3 a b c = c := by
  unfold qMax3
  split_ifs <;> simp

theorem qMin3_cases (a b c : QReal) : qMin3 a b c = a ∨ qMin3 a b c = b ∨ qMin3 a b c = c := by
  unfold qMin3
  split_ifs <;> simp

theorem qMin2_cases (a b : QReal) : qMin2 a b = a ∨ qMin2 a b = b := by
  unfold qMin2
  split_ifs <;> simp

/-- With positive denominators, Q_MAX_3 dominates its arguments. -/
theorem qMax3_ge (a b c : QReal) (ha : 0 < a.den) (hb : 0 < b.den) (hc : 0 < c.den) :
    a.toRat ≤ (qMax3 a b c).toRat ∧ b.toRat ≤ (qMax3 a b c).toRat ∧
    c.toRat ≤ (qMax3 a b c).toRat := by
  unfold qMax3
  split_ifs with h1 h2
  · obtain ⟨hba, hca⟩ := h1
    rw [QReal.ltB_iff _ _ hb ha] at hba
    rw [QReal.ltB_iff _ _ hc ha] at hca
    exact ⟨le_refl _, le_of_lt hba, le_of_lt hca⟩
  · rw [Classical.not_and_iff_or_not_not] at h1
    rw [QReal.ltB_iff _ _ hc hb] at h2
    refine ⟨?_, le_refl _, le_of_lt h2⟩
    rcases h1 with h1 | h1
    · exact QReal.ltB_false _ _ hb ha h1
    · have h3 := QReal.ltB_false _ _ hc ha h1
      linarith
  · rw [Classical.not_and_iff_or_not_not] at h1
    have h2b := QReal.ltB_false _ _ hc hb h2
    refine ⟨?_, h2b, le_refl _⟩
    rcases h1 with h1 | h1
    · have h3 := QReal.ltB_false _ _ hb ha h1
      linarith
    · exact QReal.ltB_false _ _ hc ha h1

/-- With positive denominators, Q_MIN_3 is below its arguments. -/
theorem qMin3_le (a b c : QReal) (ha : 0 < a.den) (hb : 0 < b.den) (hc : 0 < c.den) :
    (qMin3 a b c).toRat ≤ a.toRat ∧ (qMin3 a b c).toRat ≤ b.toRat ∧
    (qMin3 a b c).toRat ≤ c.toRat := by
  unfold qMin3
  split_ifs with h1 h2
  · obtain ⟨hab, hac⟩ := h1
    rw [QReal.ltB_iff _ _ ha hb] at hab
    rw [QReal.ltB_iff _ _ ha hc] at hac
    exact ⟨le_refl _, le_of_lt hab, le_of_lt hac⟩
  · rw [Classical.not_and_iff_or_not_not] at h1
    rw [QReal.ltB_iff _ _ hb hc] at h2
    refine ⟨?_, le_refl _, le_of_lt h2⟩
    rcases h1 with h1 | h1
    · exact QReal.ltB_false _ _ ha hb h1
    · have h3 := QReal.ltB_false _ _ ha hc h1
      linarith
  · rw [Classical.not_and_iff_or_not_not] at h1
    have h2b := QReal.ltB_false _ _ hb hc h2
    refine ⟨?_, h2b, le_refl _⟩
    rcases h1 with h1 | h1
    · have h3 := QReal.ltB_false _ _ ha hb h1
      linarith
    · exact QReal.ltB_false _ _ ha hc h1

/-- With positive denominators, qMin is below both arguments. -/
theorem qMin2_le (a b : QReal) (ha : 0 < a.den) (hb : 0 < b.den) :
    (qMin2 a b).toRat ≤ a.toRat ∧ (qMin2 a b).toRat ≤ b.toRat := by
  unfold qMin2
  split_ifs with h1
  · rw [QReal.ltB_iff _ _ ha hb] at h1
    exact ⟨le_refl _, le_of_lt h1⟩
  · exact ⟨QReal.ltB_false _ _ ha hb h1, le_refl _⟩

/-! ## Simp support for computing denominators and values

The OfNat literals appearing in the conversion code are specialized so
that simp can match them. -/

namespace QReal

@[simp] theorem mk_num (n d : Int) : (QReal.mk n d).num = n := rfl

@[simp] theorem mk_den (n d : Int) : (QReal.mk n d).den = d := rfl

attribute [simp] add_den sub_den mul_den

@[simp] theorem den_lit0 : (0 : QReal).den = 1 := rfl

@[simp] theorem den_lit1 : (1 : QReal).den = 1 := rfl

@[simp] theorem den_lit2 : (2 : QReal).den = 1 := rfl

@[simp] theorem den_lit4 : (4 : QReal).den = 1 := rfl

@[simp] theorem den_lit60 : (60 : QReal).den = 1 := rfl

@[simp] theorem den_lit100 : (100 : QReal).den = 1 := rfl

@[simp] theorem den_lit360 : (360 : QReal).den = 1 := rfl

@[simp] theorem den_lit65535 : (65535 : QReal).den = 1 := rfl

@[simp] theorem toRat_lit0 : (0 : QReal).toRat = 0 := by
  show ((0 : Nat) : ℚ) / ((1 : Int) : ℚ) = 0
  norm_num

@[simp] theorem toRat_lit1 : (1 : QReal).toRat = 1 := by
  show (((1 : Nat) : Int) : ℚ) / ((1 : Int) : ℚ) = 1
  norm_num

@[simp] theorem toRat_lit2 : (2 : QReal).toRat = 2 := by
  show (((2 : Nat) : Int) : ℚ) / ((1 : Int) : ℚ) = 2
  norm_num

@[simp] theorem toRat_lit4 : (4 : QReal).toRat = 4 := by
  show (((4 : Nat) : Int) : ℚ) / ((1 : Int) : ℚ) = 4
  norm_num

@[simp] theorem toRat_lit60 : (60 : QReal).toRat = 60 := by
  show (((60 : Nat) : Int) : ℚ) / ((1 : Int) : ℚ) = 60
  norm_num

@[simp] theorem toRat_lit100 : (100 : QReal).toRat = 100 := by
  show (((100 : Nat) : Int) : ℚ) / ((1 : Int) : ℚ) = 100
  norm_num

@[simp] theorem toRat_lit360 : (360 : QReal).toRat = 360 := by
  show (((360 : Nat) : Int) : ℚ) / ((1 : Int) : ℚ) = 360
  norm_num

@[simp] theorem toRat_lit65535 : (65535 : QReal).toRat = 65535 := by
  show (((65535 : Nat) : Int) : ℚ) / ((1 : Int) : ℚ) = 65535
  norm_num

/-- Specialization of ofNat_div_lit to the 16-bit scale. -/
@[simp] theorem ofNat_div_65535 (n : Nat) :
    QReal.ofNat n / (65535 : QReal) = ⟨(n : Int), 65535⟩ := by
  rw [ofNat_div_lit]
  norm_num

/-- Specialization of ofNat_div_lit to the hue scale. -/
@[simp] theorem ofNat_div_6000 (n : Nat) :
    QReal.ofNat n / (6000 : QReal) = ⟨(n : Int), 6000⟩ := by
  rw [ofNat_div_lit]
  norm_num

@[simp] theorem toRat_mk65535 (n : Int) :
    (QReal.mk n 65535).toRat = (n : ℚ) / 65535 := by
  rw [toRat_mk]
  norm_num

@[simp] theorem toRat_mk6000 (n : Int) :
    (QReal.mk n 6000).toRat = (n : ℚ) / 6000 := by
  rw [toRat_mk]
  norm_num

end QReal

/-! ## Range bounds for the QColor conversions -/

/-- A 16-bit quotient is in the unit interval. -/
theorem unitRat_of_le (n : Nat) (h : n ≤ 65535) :
    (0 : ℚ) ≤ (n : ℚ) / 65535 ∧ (n : ℚ) / 65535 ≤ 1 := by
  constructor
  · positivity
  · rw [div_le_one (by norm_num)]
    exact_mod_cast h

/-- Cmyk -> Rgb stays within 16-bit components. -/
theorem cmykRawToRgb_le (alpha C M Y K : Nat) (hC : C ≤ 65535) (hM : M ≤ 65535)
    (hY : Y ≤ 65535) (hK : K ≤ 65535) :
    (cmykRawToRgb alpha C M Y K).cspec = .rgbS ∧
    (cmykRawToRgb alpha C M Y K).c1 ≤ 65535 ∧
    (cmykRawToRgb alpha C M Y K).c2 ≤ 65535 ∧
    (cmykRawToRgb alpha C M Y K).c3 ≤ 65535 ∧
    (cmykRawToRgb alpha C M Y K).c4 = 0 ∧
    (cmykRawToRgb alpha C M Y K).alpha = alpha := by
  unfold cmykRawToRgb
  simp only [QReal.ofNat_div_65535]
  obtain ⟨hK0, hK1⟩ := unitRat_of_le K hK
  refine ⟨trivial, ?_, ?_, ?_, trivial, trivial⟩
  · obtain ⟨hx0, hx1⟩ := unitRat_of_le C hC
    apply qRoundN_le _ (by simp)
    rw [QReal.toRat_mul, QReal.toRat_sub _ _ (by simp) (by simp),
        QReal.toRat_add _ _ (by simp) (by simp), QReal.toRat_mul,
        QReal.toRat_sub _ _ (by simp) (by simp)]
    simp only [QReal.toRat_mk65535, QReal.toRat_lit1, QReal.toRat_lit65535]
    push_cast
    nlinarith [mul_nonneg hx0 (sub_nonneg.mpr hK1), mul_nonneg hx0 hK0]
  · obtain ⟨hx0, hx1⟩ := unitRat_of_le M hM
    apply qRoundN_le _ (by simp)
    rw [QReal.toRat_mul, QReal.toRat_sub _ _ (by simp) (by simp),
        QReal.toRat_add _ _ (by simp) (by simp), QReal.toRat_mul,
        QReal.toRat_sub _ _ (by simp) (by simp)]
    simp only [QReal.toRat_mk65535, QReal.toRat_lit1, QReal.toRat_lit65535]
    push_cast
    nlinarith [mul_nonneg hx0 (sub_nonneg.mpr hK1), mul_nonneg hx0 hK0]
  · obtain ⟨hx0, hx1⟩ := unitRat_of_le Y hY
    apply qRoundN_le _ (by simp)
    rw [QReal.toRat_mul, QReal.toRat_sub _ _ (by simp) (by simp),
        QReal.toRat_add _ _ (by simp) (by simp), QReal.toRat_mul,
        QReal.toRat_sub _ _ (by simp) (by simp)]
    simp only [QReal.toRat_mk65535, QReal.toRat_lit1, QReal.toRat_lit65535]
    push_cast
    nlinarith [mul_nonneg hx0 (sub_nonneg.mpr hK1), mul_nonneg hx0 hK0]

/-- Scaling a unit-interval value into the 16-bit range. -/
theorem qRoundN_unit (x : QReal) (hd : 0 < x.den) (hx : x.toRat ≤ 1) :
    qRoundN (x * 65535) ≤ 65535 := by
  apply qRoundN_le
  · simpa using hd
  · rw [QReal.toRat_mul, QReal.toRat_lit65535]
    push_cast
    nlinarith

/-- The v * (1 - s * f) pattern of the chromatic Hsv -> Rgb conversion
stays in the unit interval (covering the q and t channels). -/
theorem hsv_vst_le (S V : Nat) (hS : S ≤ 65535) (hV : V ≤ 65535) (f : QReal)
    (hfd : 0 < f.den) (hf0 : 0 ≤ f.toRat) (hf1 : f.toRat ≤ 1) :
    qRoundN ((QReal.mk (V : Int) 65535 * (1 - QReal.mk (S : Int) 65535 * f)) * 65535) ≤
      65535 := by
  obtain ⟨hs0, hs1⟩ := unitRat_of_le S hS
  obtain ⟨hv0, hv1⟩ := unitRat_of_le V hV
  apply qRoundN_unit
  · simp only [QReal.mul_den, QReal.sub_den, QReal.mk_den, QReal.den_lit1]
    positivity
  · rw [QReal.toRat_mul, QReal.toRat_sub _ _ (by simp) (by simp; omega),
        QReal.toRat_mul]
    simp only [QReal.toRat_mk65535, QReal.toRat_lit1]
    push_cast
    nlinarith [mul_nonneg hv0 (mul_nonneg hs0 hf0)]

/-- The v * (1 - s) pattern (the p channel). -/
theorem hsv_p_le (S V : Nat) (hS : S ≤ 65535) (hV : V ≤ 65535) :
    qRoundN ((QReal.mk (V : Int) 65535 * (1 - QReal.mk (S : Int) 65535)) * 65535) ≤
      65535 := by
  obtain ⟨hs0, hs1⟩ := unitRat_of_le S hS
  obtain ⟨hv0, hv1⟩ := unitRat_of_le V hV
  apply qRoundN_unit
  · simp
  · rw [QReal.toRat_mul, QReal.toRat_sub _ _ (by simp) (by simp)]
    simp only [QReal.toRat_mk65535, QReal.toRat_lit1]
    push_cast
    nlinarith [mul_nonneg hv0 hs0]

/-- The v channel alone. -/
theorem hsv_v_le (V : Nat) (hV : V ≤ 65535) :
    qRoundN (QReal.mk (V : Int) 65535 * 65535) ≤ 65535 := by
  obtain ⟨hv0, hv1⟩ := unitRat_of_le V hV
  apply qRoundN_unit
  · simp
  · simpa using hv1

/-- The unreachable switch fall-through channel. -/
theorem hsv_zero_le : qRoundN ((0 : QReal) * 65535) ≤ 65535 := by
  apply qRoundN_unit
  · simp
  · simp

/-- The complement 1 - f inherits the unit-interval bounds of f. -/
theorem one_sub_unit (f : QReal) (hfd : 0 < f.den) (hf0 : 0 ≤ f.toRat)
    (hf1 : f.toRat ≤ 1) :
    0 < (1 - f).den ∧ 0 ≤ (1 - f).toRat ∧ (1 - f).toRat ≤ 1 := by
  refine ⟨by simpa using hfd, ?_, ?_⟩ <;>
    rw [QReal.toRat_sub _ _ (by simp) (by omega), QReal.toRat_lit1] <;> linarith

/-- Hsv -> Rgb stays within 16-bit components (no constraint on the
stored hue is needed: every branch produces unit-interval channels,
including the unreachable switch fall-through). -/
theorem hsvRawToRgb_le (alpha H S V : Nat) (hS : S ≤ 65535) (hV : V ≤ 65535) :
    (hsvRawToRgb alpha H S V).cspec = .rgbS ∧
    (hsvRawToRgb alpha H S V).c1 ≤ 65535 ∧
    (hsvRawToRgb alpha H S V).c2 ≤ 65535 ∧
    (hsvRawToRgb alpha H S V).c3 ≤ 65535 := by
  have hv := hsv_v_le V hV
  have hp := hsv_p_le S V hS hV
  have h0 := hsv_zero_le
  by_cases hach : S = 0 ∨ H = 65535
  · rw [hsvRawToRgb, if_pos hach]
    exact ⟨rfl, hV, hV, hV⟩
  · rw [hsvRawToRgb, if_neg hach]
    simp only [QReal.ofNat_div_65535, QReal.ofNat_div_6000]
    by_cases h36 : H = 36000
    · simp only [if_pos h36]
      have hfd : 0 < ((0 : QReal) - QReal.ofNat 0).den := by
        simp [QReal.ofNat]
      have hft : ((0 : QReal) - QReal.ofNat 0).toRat = 0 := by
        rw [QReal.toRat_sub _ _ (by simp) (by simp [QReal.ofNat]),
            QReal.toRat_lit0, QReal.toRat_ofNat]
        norm_num
      obtain ⟨hd2, h02, h12⟩ := one_sub_unit _ hfd (by rw [hft]) (by rw [hft]; norm_num)
      have ht := hsv_vst_le S V hS hV _ hd2 h02 h12
      norm_num
      exact ⟨hv, ht, hp⟩
    · simp only [if_neg h36]
      have hkey : ⌊(H : ℚ) / 6000⌋ = ((H / 6000 : Nat) : ℤ) := by
        rw [show ((6000 : ℚ)) = ((6000 : ℕ) : ℚ) by norm_num,
            Rat.floor_natCast_div_natCast]
        omega
      have hfl : ((H / 6000 : Nat) : ℚ) ≤ (H : ℚ) / 6000 := by
        have h2 := Int.floor_le ((H : ℚ) / 6000)
        rw [hkey] at h2
        exact_mod_cast h2
      have hfu : (H : ℚ) / 6000 < ((H / 6000 : Nat) : ℚ) + 1 := by
        have h2 := Int.lt_floor_add_one ((H : ℚ) / 6000)
        rw [hkey] at h2
        exact_mod_cast h2
      have hfd : 0 < ((⟨(H : Int), 6000⟩ : QReal) - QReal.ofNat (H / 6000)).den := by
        simp [QReal.ofNat]
      have hft0 : 0 ≤ ((⟨(H : Int), 6000⟩ : QReal) - QReal.ofNat (H / 6000)).toRat := by
        rw [QReal.toRat_sub _ _ (by simp) (by simp [QReal.ofNat]),
            QReal.toRat_mk6000, QReal.toRat_ofNat]
        push_cast
        linarith
      have hft1 : ((⟨(H : Int), 6000⟩ : QReal) - QReal.ofNat (H / 6000)).toRat ≤ 1 := by
        rw [QReal.toRat_sub _ _ (by simp) (by simp [QReal.ofNat]),
            QReal.toRat_mk6000, QReal.toRat_ofNat]
        push_cast
        linarith
      have hq := hsv_vst_le S V hS hV _ hfd hft0 hft1
      obtain ⟨hd2, h02, h12⟩ := one_sub_unit _ hfd hft0 hft1
      have ht := hsv_vst_le S V hS hV _ hd2 h02 h12
      split_ifs
      · exact ⟨trivial, hq, hv, hp⟩
      · exact ⟨trivial, hp, hq, hv⟩
      · exact ⟨trivial, hv, hp, hq⟩
      · exact ⟨trivial, h0, h0, h0⟩
      · exact ⟨trivial, hv, ht, hp⟩
      · exact ⟨trivial, hp, hv, ht⟩
      · exact ⟨trivial, ht, hp, hv⟩
      · exact ⟨trivial, h0, h0, h0⟩


/-- One channel of the chromatic Rgb -> Cmyk rescaling stays in the
unit interval. -/
theorem cmyk_chan_le (X : Nat) (hX : X ≤ 65535) (K : QReal) (hKd : K.den = 65535)
    (hK1 : K.toRat < 1) (hKle : K.toRat ≤ 1 - (X : ℚ) / 65535) :
    qRoundN ((((1 - (⟨(X : Int), 65535⟩ : QReal)) - K) / (1 - K)) * 65535) ≤ 65535 := by
  obtain ⟨hx0, hx1⟩ := unitRat_of_le X hX
  have h1Kd : (1 - K).den = 65535 := by
    rw [QReal.sub_den, QReal.den_lit1, hKd]
    norm_num
  have h1Kt : (1 - K).toRat = 1 - K.toRat := by
    rw [QReal.toRat_sub _ _ (by simp) (by rw [hKd]; norm_num), QReal.toRat_lit1]
  have h1Kn : 0 < (1 - K).num := by
    apply QReal.num_pos _ (by rw [h1Kd]; norm_num)
    rw [h1Kt]
    linarith
  have hnumt : ((1 - (⟨(X : Int), 65535⟩ : QReal)) - K).toRat =
      (1 - (X : ℚ) / 65535) - K.toRat := by
    rw [QReal.toRat_sub _ _ (by norm_num) (by rw [hKd]; norm_num),
        QReal.toRat_sub _ _ (by simp) (by simp), QReal.toRat_lit1,
        QReal.toRat_mk65535]
    push_cast
    ring
  apply qRoundN_unit
  · rw [QReal.div_den_of_pos _ _ h1Kn, QReal.sub_den, QReal.sub_den,
        QReal.den_lit1, QReal.mk_den, hKd]
    positivity
  · rw [QReal.toRat_div, hnumt, h1Kt, div_le_one (by linarith)]
    linarith

/-- Rgb -> Cmyk stays within 16-bit components. -/
theorem rgbRawToCmyk_le (alpha R G B : Nat) (hR : R ≤ 65535) (hG : G ≤ 65535)
    (hB : B ≤ 65535) :
    (rgbRawToCmyk alpha R G B).cspec = .cmykS ∧
    (rgbRawToCmyk alpha R G B).c1 ≤ 65535 ∧
    (rgbRawToCmyk alpha R G B).c2 ≤ 65535 ∧
    (rgbRawToCmyk alpha R G B).c3 ≤ 65535 ∧
    (rgbRawToCmyk alpha R G B).c4 ≤ 65535 := by
  obtain ⟨hr0, hr1⟩ := unitRat_of_le R hR
  obtain ⟨hg0, hg1⟩ := unitRat_of_le G hG
  obtain ⟨hb0, hb1⟩ := unitRat_of_le B hB
  unfold rgbRawToCmyk
  by_cases hz : R = 0 ∧ G = 0 ∧ B = 0
  · rw [if_pos hz]
    exact ⟨rfl, Nat.zero_le _, Nat.zero_le _, Nat.zero_le _, le_refl _⟩
  · rw [if_neg hz]
    simp only [QReal.ofNat_div_65535]
    have hcompR : (1 - (⟨(R : Int), 65535⟩ : QReal)).toRat = 1 - (R : ℚ) / 65535 := by
      rw [QReal.toRat_sub _ _ (by simp) (by simp), QReal.toRat_lit1,
        QReal.toRat_mk65535]
      push_cast
      ring
    have hcompG : (1 - (⟨(G : Int), 65535⟩ : QReal)).toRat = 1 - (G : ℚ) / 65535 := by
      rw [QReal.toRat_sub _ _ (by simp) (by simp), QReal.toRat_lit1,
        QReal.toRat_mk65535]
      push_cast
      ring
    have hcompB : (1 - (⟨(B : Int), 65535⟩ : QReal)).toRat = 1 - (B : ℚ) / 65535 := by
      rw [QReal.toRat_sub _ _ (by simp) (by simp), QReal.toRat_lit1,
        QReal.toRat_mk65535]
      push_cast
      ring
    have hin := qMin2_cases (1 - (⟨(G : Int), 65535⟩ : QReal)) (1 - ⟨(B : Int), 65535⟩)
    have hout := qMin2_cases (1 - (⟨(R : Int), 65535⟩ : QReal))
      (qMin2 (1 - ⟨(G : Int), 65535⟩) (1 - ⟨(B : Int), 65535⟩))
    have hinD : (qMin2 (1 - (⟨(G : Int), 65535⟩ : QReal)) (1 - ⟨(B : Int), 65535⟩)).den =
        65535 := by
      rcases hin with h | h <;> rw [h] <;> norm_num
    have hkD : (qMin2 (1 - (⟨(R : Int), 65535⟩ : QReal))
        (qMin2 (1 - ⟨(G : Int), 65535⟩) (1 - ⟨(B : Int), 65535⟩))).den = 65535 := by
      rcases hout with h | h
      · rw [h]
        norm_num
      · rw [h, hinD]
    have hinLe := qMin2_le (1 - (⟨(G : Int), 65535⟩ : QReal)) (1 - ⟨(B : Int), 65535⟩)
      (by norm_num) (by norm_num)
    have hkLe := qMin2_le (1 - (⟨(R : Int), 65535⟩ : QReal))
      (qMin2 (1 - ⟨(G : Int), 65535⟩) (1 - ⟨(B : Int), 65535⟩))
      (by norm_num) (by rw [hinD]; norm_num)
    have hkR : (qMin2 (1 - (⟨(R : Int), 65535⟩ : QReal))
        (qMin2 (1 - ⟨(G : Int), 65535⟩) (1 - ⟨(B : Int), 65535⟩))).toRat ≤
        1 - (R : ℚ) / 65535 := by
      rw [← hcompR]
      exact hkLe.1
    have hkG : (qMin2 (1 - (⟨(R : Int), 65535⟩ : QReal))
        (qMin2 (1 - ⟨(G : Int), 65535⟩) (1 - ⟨(B : Int), 65535⟩))).toRat ≤
        1 - (G : ℚ) / 65535 := by
      calc _ ≤ _ := hkLe.2
      _ ≤ _ := hinLe.1
      _ = _ := hcompG
    have hkB : (qMin2 (1 - (⟨(R : Int), 65535⟩ : QReal))
        (qMin2 (1 - ⟨(G : Int), 65535⟩) (1 - ⟨(B : Int), 65535⟩))).toRat ≤
        1 - (B : ℚ) / 65535 := by
      calc _ ≤ _ := hkLe.2
      _ ≤ _ := hinLe.2
      _ = _ := hcompB
    have hk1 : (qMin2 (1 - (⟨(R : Int), 65535⟩ : QReal))
        (qMin2 (1 - ⟨(G : Int), 65535⟩) (1 - ⟨(B : Int), 65535⟩))).toRat < 1 := by
      have hone : 1 ≤ R ∨ 1 ≤ G ∨ 1 ≤ B := by omega
      rcases hone with h | h | h
      · have hpos : (0 : ℚ) < (R : ℚ) / 65535 := by
          apply div_pos _ (by norm_num)
          exact_mod_cast h
        linarith
      · have hpos : (0 : ℚ) < (G : ℚ) / 65535 := by
          apply div_pos _ (by norm_num)
          exact_mod_cast h
        linarith
      · have hpos : (0 : ℚ) < (B : ℚ) / 65535 := by
          apply div_pos _ (by norm_num)
          exact_mod_cast h
        linarith
    have hk0 : 0 ≤ (qMin2 (1 - (⟨(R : Int), 65535⟩ : QReal))
        (qMin2 (1 - ⟨(G : Int), 65535⟩) (1 - ⟨(B : Int), 65535⟩))).toRat := by
      rcases hout with h | h
      · rw [h, hcompR]
        linarith
      · rw [h]
        rcases hin with h2 | h2 <;> rw [h2]
        · rw [hcompG]
          linarith
        · rw [hcompB]
          linarith
    refine ⟨trivial, ?_, ?_, ?_, ?_⟩
    · exact cmyk_chan_le R hR _ hkD hk1 hkR
    · exact cmyk_chan_le G hG _ hkD hk1 hkG
    · exact cmyk_chan_le B hB _ hkD hk1 hkB
    · apply qRoundN_unit _ (by rw [hkD]; norm_num)
      linarith

/-- Rgb -> Hsv: the spec tag, and the saturation and value slots stay
within 16 bits; in the achromatic case the hue slot is the sentinel. -/
theorem rgbRawToHsv_sv (alpha R G B : Nat) (hR : R ≤ 65535) (hG : G ≤ 65535)
    (hB : B ≤ 65535) :
    (rgbRawToHsv alpha R G B).cspec = .hsvS ∧
    (rgbRawToHsv alpha R G B).c2 ≤ 65535 ∧
    (rgbRawToHsv alpha R G B).c3 ≤ 65535 := by
  obtain ⟨hr0, hr1⟩ := unitRat_of_le R hR
  obtain ⟨hg0, hg1⟩ := unitRat_of_le G hG
  obtain ⟨hb0, hb1⟩ := unitRat_of_le B hB
  unfold rgbRawToHsv
  simp only [QReal.ofNat_div_65535]
  set a : QReal := ⟨(R : Int), 65535⟩ with ha
  set b : QReal := ⟨(G : Int), 65535⟩ with hb2
  set c : QReal := ⟨(B : Int), 65535⟩ with hc2
  have haD : a.den = 65535 := rfl
  have hbD : b.den = 65535 := rfl
  have hcD : c.den = 65535 := rfl
  have hat : a.toRat = (R : ℚ) / 65535 := by rw [ha, QReal.toRat_mk65535]; push_cast; ring
  have hbt : b.toRat = (G : ℚ) / 65535 := by rw [hb2, QReal.toRat_mk65535]; push_cast; ring
  have hct : c.toRat = (B : ℚ) / 65535 := by rw [hc2, QReal.toRat_mk65535]; push_cast; ring
  have hMc := qMax3_cases a b c
  have hmc := qMin3_cases a b c
  have hMD : (qMax3 a b c).den = 65535 := by
    rcases hMc with h | h | h <;> rw [h]
  have hmD : (qMin3 a b c).den = 65535 := by
    rcases hmc with h | h | h <;> rw [h]
  have hMt1 : (qMax3 a b c).toRat ≤ 1 := by
    rcases hMc with h | h | h <;> rw [h]
    · rw [hat]; linarith
    · rw [hbt]; linarith
    · rw [hct]; linarith
  have hge := qMax3_ge a b c (by rw [haD]; norm_num) (by rw [hbD]; norm_num)
    (by rw [hcD]; norm_num)
  have hle := qMin3_le a b c (by rw [haD]; norm_num) (by rw [hbD]; norm_num)
    (by rw [hcD]; norm_num)
  have hm0 : 0 ≤ (qMin3 a b c).toRat := by
    rcases hmc with h | h | h <;> rw [h]
    · rw [hat]; linarith
    · rw [hbt]; linarith
    · rw [hct]; linarith
  have hMm : (qMin3 a b c).toRat ≤ (qMax3 a b c).toRat := le_trans hle.1 hge.1
  have hvb := qRoundN_unit (qMax3 a b c) (by rw [hMD]; norm_num) hMt1
  by_cases hd : (qMax3 a b c - qMin3 a b c).beq 0 = true
  · rw [if_pos hd]
    exact ⟨rfl, Nat.zero_le _, hvb⟩
  · rw [if_neg hd]
    have hdt : (qMax3 a b c - qMin3 a b c).toRat =
        (qMax3 a b c).toRat - (qMin3 a b c).toRat :=
      QReal.toRat_sub _ _ (by rw [hMD]; norm_num) (by rw [hmD]; norm_num)
    have hdne : (qMax3 a b c - qMin3 a b c).toRat ≠ 0 := by
      intro hcon
      apply hd
      rw [QReal.beq_iff _ _ (by rw [QReal.sub_den, hMD, hmD]; norm_num) (by norm_num)]
      rw [hcon, QReal.toRat_lit0]
    have hdpos : 0 < (qMax3 a b c - qMin3 a b c).toRat := by
      rcases lt_or_eq_of_le (show 0 ≤ (qMax3 a b c - qMin3 a b c).toRat by
        rw [hdt]; linarith) with h | h
      · exact h
      · exact absurd h.symm hdne
    have hMpos : 0 < (qMax3 a b c).toRat := by
      rw [hdt] at hdpos
      linarith
    have hMnum : 0 < (qMax3 a b c).num := QReal.num_pos _ (by rw [hMD]; norm_num) hMpos
    refine ⟨rfl, ?_, hvb⟩
    apply qRoundN_unit
    · rw [QReal.div_den_of_pos _ _ hMnum, QReal.sub_den, hMD, hmD]
      positivity
    · rw [QReal.toRat_div, hdt, div_le_one hMpos]
      linarith

/-- gammaRound is the rounding of 257 * K * a / 255. -/
theorem gammaRound_eq (K a : Nat) :
    gammaRound K a = (⌊(257 * K * a : ℚ) / 255 + 1 / 2⌋).toNat := by
  have h1 : (257 * K * a : ℚ) / 255 + 1 / 2 =
      ((514 * K * a + 255 : ℕ) : ℚ) / ((510 : ℕ) : ℚ) := by
    push_cast
    field_simp
    ring
  rw [h1, Rat.floor_natCast_div_natCast]
  unfold gammaRound
  omega

/-- One channel of the Cmyk -> Rgb conversion on 8-bit-scaled raw
components is exactly a gammaRound value. -/
theorem cmyk_chan_8bit (x8 k8 : Nat) (hx : x8 ≤ 255) (hk : k8 ≤ 255) :
    qRoundN ((1 - ((⟨((257 * x8 : Nat) : Int), 65535⟩ : QReal) *
      (1 - ⟨((257 * k8 : Nat) : Int), 65535⟩) + ⟨((257 * k8 : Nat) : Int), 65535⟩)) * 65535) =
    gammaRound (255 - k8) (255 - x8) := by
  rw [qRoundN_eq _ (by norm_num), gammaRound_eq]
  congr 2
  rw [QReal.toRat_mul, QReal.toRat_sub _ _ (by norm_num) (by norm_num),
      QReal.toRat_add _ _ (by norm_num) (by norm_num), QReal.toRat_mul,
      QReal.toRat_sub _ _ (by norm_num) (by norm_num)]
  simp only [QReal.toRat_mk65535, QReal.toRat_lit1, QReal.toRat_lit65535]
  push_cast [Nat.cast_sub hx, Nat.cast_sub hk]
  field_simp
  ring

/-- Cmyk -> Rgb on components produced by set_cmyk with 8-bit values:
the exact gammaRound form of every rgb component, with
K = 255 - black. -/
theorem cmykRawToRgb_8bit (alpha c8 m8 y8 k8 : Nat) (hc : c8 ≤ 255) (hm : m8 ≤ 255)
    (hy : y8 ≤ 255) (hk : k8 ≤ 255) :
    cmykRawToRgb alpha (257 * c8) (257 * m8) (257 * y8) (257 * k8) =
      ⟨.rgbS, alpha, gammaRound (255 - k8) (255 - c8), gammaRound (255 - k8) (255 - m8),
        gammaRound (255 - k8) (255 - y8), 0⟩ := by
  unfold cmykRawToRgb
  simp only [QReal.ofNat_div_65535]
  rw [QColor.mk.injEq]
  exact ⟨rfl, rfl, cmyk_chan_8bit c8 k8 hc hk, cmyk_chan_8bit m8 k8 hm hk,
    cmyk_chan_8bit y8 k8 hy hk, rfl⟩

set_option maxHeartbeats 1000000 in
/-- The hue slot computed by Rgb -> Hsv from components of gammaRound
form (every rgb triple the program ever converts to HSV) is either the
achromatic sentinel or at most 35999 — i.e. the rounded hue never
reaches 360 degrees, because distinct gammaRound components keep a
quantitative gap relative to the spread. -/
theorem rgbRawToHsv_hue (alpha K a8 b8 c8 : Nat) (hK : K ≤ 255)
    (ha8 : a8 ≤ 255) (hb8 : b8 ≤ 255) (hc8 : c8 ≤ 255) :
    (rgbRawToHsv alpha (gammaRound K a8) (gammaRound K b8) (gammaRound K c8)).c1 = 65535 ∨
    (rgbRawToHsv alpha (gammaRound K a8) (gammaRound K b8) (gammaRound K c8)).c1 ≤ 35999 := by
  set R := gammaRound K a8 with hRdef
  set G := gammaRound K b8 with hGdef
  set B := gammaRound K c8 with hBdef
  have hRle : R ≤ 257 * K := gammaRound_le K a8 ha8
  have hGle : G ≤ 257 * K := gammaRound_le K b8 hb8
  have hBle : B ≤ 257 * K := gammaRound_le K c8 hc8
  unfold rgbRawToHsv
  simp only [QReal.ofNat_div_65535]
  set rq : QReal := ⟨(R : Int), 65535⟩ with hrq
  set gq : QReal := ⟨(G : Int), 65535⟩ with hgq
  set bq : QReal := ⟨(B : Int), 65535⟩ with hbq
  have hrD : rq.den = 65535 := by rw [hrq]
  have hgD : gq.den = 65535 := by rw [hgq]
  have hbD : bq.den = 65535 := by rw [hbq]
  have hrt : rq.toRat = (R : ℚ) / 65535 := by
    rw [hrq]
    all_goals unfold QReal.toRat
    all_goals norm_num
  have hgt : gq.toRat = (G : ℚ) / 65535 := by
    rw [hgq]
    all_goals unfold QReal.toRat
    all_goals norm_num
  have hbt : bq.toRat = (B : ℚ) / 65535 := by
    rw [hbq]
    all_goals unfold QReal.toRat
    all_goals norm_num
  have hMc := qMax3_cases rq gq bq
  have hmc := qMin3_cases rq gq bq
  have hMD : (qMax3 rq gq bq).den = 65535 := by
    rcases hMc with h | h | h <;> rw [h]
  have hmD : (qMin3 rq gq bq).den = 65535 := by
    rcases hmc with h | h | h <;> rw [h]
  have hge := qMax3_ge rq gq bq (by rw [hrD]; norm_num) (by rw [hgD]; norm_num)
    (by rw [hbD]; norm_num)
  have hle := qMin3_le rq gq bq (by rw [hrD]; norm_num) (by rw [hgD]; norm_num)
    (by rw [hbD]; norm_num)
  have hm0 : 0 ≤ (qMin3 rq gq bq).toRat := by
    rcases hmc with h | h | h <;> rw [h]
    · rw [hrt]; positivity
    · rw [hgt]; positivity
    · rw [hbt]; positivity
  have hM257 : (qMax3 rq gq bq).toRat ≤ (257 * K : ℚ) / 65535 := by
    rcases hMc with h | h | h <;> rw [h]
    · rw [hrt, div_le_div_iff (by norm_num) (by norm_num)]
      have hc : (R : ℚ) ≤ 257 * (K : ℚ) := by exact_mod_cast hRle
      nlinarith
    · rw [hgt, div_le_div_iff (by norm_num) (by norm_num)]
      have hc : (G : ℚ) ≤ 257 * (K : ℚ) := by exact_mod_cast hGle
      nlinarith
    · rw [hbt, div_le_div_iff (by norm_num) (by norm_num)]
      have hc : (B : ℚ) ≤ 257 * (K : ℚ) := by exact_mod_cast hBle
      nlinarith
  by_cases hd : (qMax3 rq gq bq - qMin3 rq gq bq).beq 0 = true
  · rw [if_pos hd]
    left
    rfl
  · rw [if_neg hd]
    right
    have hΔdt : (qMax3 rq gq bq - qMin3 rq gq bq).toRat =
        (qMax3 rq gq bq).toRat - (qMin3 rq gq bq).toRat :=
      QReal.toRat_sub _ _ (by rw [hMD]; norm_num) (by rw [hmD]; norm_num)
    have hΔden : 0 < (qMax3 rq gq bq - qMin3 rq gq bq).den := by
      rw [QReal.sub_den, hMD, hmD]
      norm_num
    have hΔne : (qMax3 rq gq bq - qMin3 rq gq bq).toRat ≠ 0 := by
      intro hcon
      apply hd
      rw [QReal.beq_iff _ _ hΔden (by norm_num), hcon, QReal.toRat_lit0]
    have hΔ0 : 0 ≤ (qMax3 rq gq bq - qMin3 rq gq bq).toRat := by
      rw [hΔdt]
      have := le_trans hle.1 hge.1
      linarith
    have hΔpos : 0 < (qMax3 rq gq bq - qMin3 rq gq bq).toRat :=
      lt_of_le_of_ne hΔ0 (Ne.symm hΔne)
    have hΔnum : 0 < (qMax3 rq gq bq - qMin3 rq gq bq).num :=
      QReal.num_pos _ hΔden hΔpos
    have hΔle : (qMax3 rq gq bq - qMin3 rq gq bq).toRat ≤ (257 * K : ℚ) / 65535 := by
      rw [hΔdt]
      linarith
    have hK1 : 1 ≤ K := by
      by_contra hc0
      have hKz : K = 0 := by omega
      have hRz : R = 0 := by rw [hRdef, hKz, gammaRound_zero_left]
      have hGz : G = 0 := by rw [hGdef, hKz, gammaRound_zero_left]
      have hBz : B = 0 := by rw [hBdef, hKz, gammaRound_zero_left]
      have hrt0 : rq.toRat = 0 := by rw [hrt, hRz]; norm_num
      have hgt0 : gq.toRat = 0 := by rw [hgt, hGz]; norm_num
      have hbt0 : bq.toRat = 0 := by rw [hbt, hBz]; norm_num
      have hMz : (qMax3 rq gq bq).toRat = 0 := by
        rcases hMc with h | h | h <;> rw [h] <;> assumption
      have hmz : (qMin3 rq gq bq).toRat = 0 := by
        rcases hmc with h | h | h <;> rw [h] <;> assumption
      rw [hΔdt, hMz, hmz] at hΔpos
      norm_num at hΔpos
    by_cases hbr : rq.beq (qMax3 rq gq bq) = true
    · rw [if_pos hbr]
      have hgbD : (gq - bq).den = 65535 * 65535 := by
        rw [QReal.sub_den]
      have hdivD : 0 < ((gq - bq) / (qMax3 rq gq bq - qMin3 rq gq bq)).den := by
        rw [QReal.div_den_of_pos _ _ hΔnum, hgbD]
        positivity
      have hdivt : ((gq - bq) / (qMax3 rq gq bq - qMin3 rq gq bq)).toRat =
          ((G : ℚ) / 65535 - (B : ℚ) / 65535) /
            (qMax3 rq gq bq - qMin3 rq gq bq).toRat := by
        rw [QReal.toRat_div, QReal.toRat_sub _ _ (by rw [hgD]; norm_num)
          (by rw [hbD]; norm_num), hgt, hbt]
      by_cases hneg : (((gq - bq) / (qMax3 rq gq bq - qMin3 rq gq bq)) * 60).ltB 0 = true
      · rw [if_pos hneg]
        have hlt := (QReal.ltB_iff _ _
          (by rw [QReal.mul_den, QReal.den_lit60]; omega) (by norm_num)).mp hneg
        rw [QReal.toRat_mul, QReal.toRat_lit60, QReal.toRat_lit0, hdivt] at hlt
        have hfneg : ((G : ℚ) / 65535 - (B : ℚ) / 65535) /
            (qMax3 rq gq bq - qMin3 rq gq bq).toRat < 0 := by linarith
        have hGBq : (G : ℚ) / 65535 < (B : ℚ) / 65535 := by
          rcases div_neg_iff.mp hfneg with ⟨h1, h2⟩ | ⟨h1, h2⟩
          · exact absurd hΔpos (not_lt.mpr (le_of_lt h2))
          · linarith
        have hGB : G < B := by
          rw [div_lt_div_iff (by norm_num) (by norm_num)] at hGBq
          exact_mod_cast (by nlinarith : ((G : ℚ)) < (B : ℚ))
        have hgap := gammaRound_gap K c8 b8 hK1 (by rw [← hGdef, ← hBdef]; exact hGB)
        have hgapQ : (514 * K : ℚ) ≤ 1021 * ((B : ℚ) - (G : ℚ)) := by
          rw [← hBdef, ← hGdef] at hgap
          have h2 : ((514 * K : ℕ) : ℚ) ≤ ((1021 * (B - G) : ℕ) : ℚ) := by
            exact_mod_cast hgap
          push_cast [Nat.cast_sub (le_of_lt hGB)] at h2
          linarith
        apply qRoundN_le
        · rw [QReal.mul_den, QReal.add_den, QReal.mul_den, QReal.den_lit60,
            QReal.den_lit360, QReal.den_lit100]
          omega
        · rw [QReal.toRat_mul, QReal.toRat_add _ _
            (by rw [QReal.mul_den, QReal.den_lit60]; omega) (by norm_num),
            QReal.toRat_mul, QReal.toRat_lit60, QReal.toRat_lit360,
            QReal.toRat_lit100, hdivt]
          have h65 : 65535 * (qMax3 rq gq bq - qMin3 rq gq bq).toRat ≤ (257 * K : ℚ) := by
            linarith
          have hcross : 2 * (65535 * (qMax3 rq gq bq - qMin3 rq gq bq).toRat) ≤
              1021 * ((B : ℚ) - (G : ℚ)) := by
            linarith
          have hfrac : ((G : ℚ) / 65535 - (B : ℚ) / 65535) /
              (qMax3 rq gq bq - qMin3 rq gq bq).toRat =
              -((((B : ℚ) - (G : ℚ))) /
                (65535 * (qMax3 rq gq bq - qMin3 rq gq bq).toRat)) := by
            rw [div_sub_div_same, div_div, ← neg_sub ((B : ℚ)) ((G : ℚ)), neg_div]
          have hratio : 2 / 1021 ≤ (((B : ℚ) - (G : ℚ))) /
              (65535 * (qMax3 rq gq bq - qMin3 rq gq bq).toRat) := by
            rw [div_le_div_iff (by norm_num) (by linarith)]
            linarith
          rw [hfrac]
          push_cast
          linarith
      · rw [if_neg hneg]
        have hge0 := QReal.ltB_false _ _
          (by rw [QReal.mul_den, QReal.den_lit60]; omega) (by norm_num) hneg
        rw [QReal.toRat_lit0] at hge0
        apply qRoundN_le
        · rw [QReal.mul_den, QReal.mul_den, QReal.den_lit60, QReal.den_lit100]
          omega
        · rw [QReal.toRat_mul, QReal.toRat_mul, QReal.toRat_lit60,
            QReal.toRat_lit100, hdivt]
          have hfle : ((G : ℚ) / 65535 - (B : ℚ) / 65535) /
              (qMax3 rq gq bq - qMin3 rq gq bq).toRat ≤ 1 := by
            rw [div_le_one hΔpos, hΔdt]
            have h1 : gq.toRat ≤ (qMax3 rq gq bq).toRat := hge.2.1
            have h2 : (qMin3 rq gq bq).toRat ≤ bq.toRat := hle.2.2
            rw [hgt] at h1
            rw [hbt] at h2
            linarith
          push_cast
          linarith
    · rw [if_neg hbr]
      by_cases hbr2 : gq.beq (qMax3 rq gq bq) = true
      · rw [if_pos hbr2]
        have hbrD : (bq - rq).den = 65535 * 65535 := by
          rw [QReal.sub_den]
        have hdivD : 0 < ((bq - rq) / (qMax3 rq gq bq - qMin3 rq gq bq)).den := by
          rw [QReal.div_den_of_pos _ _ hΔnum, hbrD]
          positivity
        have hdivt : ((bq - rq) / (qMax3 rq gq bq - qMin3 rq gq bq)).toRat =
            ((B : ℚ) / 65535 - (R : ℚ) / 65535) /
              (qMax3 rq gq bq - qMin3 rq gq bq).toRat := by
          rw [QReal.toRat_div, QReal.toRat_sub _ _ (by rw [hbD]; norm_num)
            (by rw [hrD]; norm_num), hbt, hrt]
        have hbound : -1 ≤ ((B : ℚ) / 65535 - (R : ℚ) / 65535) /
            (qMax3 rq gq bq - qMin3 rq gq bq).toRat ∧
            ((B : ℚ) / 65535 - (R : ℚ) / 65535) /
            (qMax3 rq gq bq - qMin3 rq gq bq).toRat ≤ 1 := by
          have h1 : bq.toRat ≤ (qMax3 rq gq bq).toRat := hge.2.2
          have h2 : (qMin3 rq gq bq).toRat ≤ rq.toRat := hle.1
          rw [hbt] at h1
          rw [hrt] at h2
          constructor
          · rw [le_div_iff hΔpos, hΔdt]
            linarith
          · rw [div_le_one hΔpos, hΔdt]
            linarith
        have htot : ((2 + (bq - rq) / (qMax3 rq gq bq - qMin3 rq gq bq)) * 60).toRat =
            (2 + ((B : ℚ) / 65535 - (R : ℚ) / 65535) /
              (qMax3 rq gq bq - qMin3 rq gq bq).toRat) * 60 := by
          rw [QReal.toRat_mul, QReal.toRat_add _ _ (by norm_num)
            (by omega), QReal.toRat_lit2, QReal.toRat_lit60, hdivt]
        by_cases hneg : ((2 + (bq - rq) / (qMax3 rq gq bq - qMin3 rq gq bq)) * 60).ltB
            0 = true
        · exfalso
          have hlt := (QReal.ltB_iff _ _ (by rw [QReal.mul_den, QReal.add_den,
            QReal.den_lit2, QReal.den_lit60]; omega) (by norm_num)).mp hneg
          rw [htot, QReal.toRat_lit0] at hlt
          obtain ⟨hb1, hb2⟩ := hbound
          nlinarith
        · rw [if_neg hneg]
          apply qRoundN_le
          · rw [QReal.mul_den, QReal.mul_den, QReal.add_den, QReal.den_lit2,
              QReal.den_lit60, QReal.den_lit100]
            omega
          · rw [QReal.toRat_mul, htot, QReal.toRat_lit100]
            obtain ⟨hb1, hb2⟩ := hbound
            push_cast
            linarith
      · rw [if_neg hbr2]
        have hrgD : (rq - gq).den = 65535 * 65535 := by
          rw [QReal.sub_den]
        have hdivD : 0 < ((rq - gq) / (qMax3 rq gq bq - qMin3 rq gq bq)).den := by
          rw [QReal.div_den_of_pos _ _ hΔnum, hrgD]
          positivity
        have hdivt : ((rq - gq) / (qMax3 rq gq bq - qMin3 rq gq bq)).toRat =
            ((R : ℚ) / 65535 - (G : ℚ) / 65535) /
              (qMax3 rq gq bq - qMin3 rq gq bq).toRat := by
          rw [QReal.toRat_div, QReal.toRat_sub _ _ (by rw [hrD]; norm_num)
            (by rw [hgD]; norm_num), hrt, hgt]
        have hbound : -1 ≤ ((R : ℚ) / 65535 - (G : ℚ) / 65535) /
            (qMax3 rq gq bq - qMin3 rq gq bq).toRat ∧
            ((R : ℚ) / 65535 - (G : ℚ) / 65535) /
            (qMax3 rq gq bq - qMin3 rq gq bq).toRat ≤ 1 := by
          have h1 : rq.toRat ≤ (qMax3 rq gq bq).toRat := hge.1
          have h2 : (qMin3 rq gq bq).toRat ≤ gq.toRat := hle.2.1
          rw [hrt] at h1
          rw [hgt] at h2
          constructor
          · rw [le_div_iff hΔpos, hΔdt]
            linarith
          · rw [div_le_one hΔpos, hΔdt]
            linarith
        have htot : ((4 + (rq - gq) / (qMax3 rq gq bq - qMin3 rq gq bq)) * 60).toRat =
            (4 + ((R : ℚ) / 65535 - (G : ℚ) / 65535) /
              (qMax3 rq gq bq - qMin3 rq gq bq).toRat) * 60 := by
          rw [QReal.toRat_mul, QReal.toRat_add _ _ (by norm_num)
            (by omega), QReal.toRat_lit4, QReal.toRat_lit60, hdivt]
        by_cases hneg : ((4 + (rq - gq) / (qMax3 rq gq bq - qMin3 rq gq bq)) * 60).ltB
            0 = true
        · exfalso
          have hlt := (QReal.ltB_iff _ _ (by rw [QReal.mul_den, QReal.add_den,
            QReal.den_lit4, QReal.den_lit60]; omega) (by norm_num)).mp hneg
          rw [htot, QReal.toRat_lit0] at hlt
          obtain ⟨hb1, hb2⟩ := hbound
          nlinarith
        · rw [if_neg hneg]
          apply qRoundN_le
          · rw [QReal.mul_den, QReal.mul_den, QReal.add_den, QReal.den_lit4,
              QReal.den_lit60, QReal.den_lit100]
            omega
          · rw [QReal.toRat_mul, htot, QReal.toRat_lit100]
            obtain ⟨hb1, hb2⟩ := hbound
            push_cast
            linarith


/-! ## Parsing the displayed texts

Every committed value that ever reaches a field is an integer in
[-1, 660] (channel values, with hue possibly -1); on this range
Python int() inverts the decimal rendering exactly. -/

set_option maxRecDepth 40000 in
theorem pyParseInt_toString_bounded :
    ∀ v ∈ Finset.Icc (-1 : Int) 660, pyParseInt (toString v) = some v := by
  decide

theorem pyParseInt_toString (v : Int) (h1 : -1 ≤ v) (h2 : v ≤ 660) :
    pyParseInt (toString v) = some v :=
  pyParseInt_toString_bounded v (Finset.mem_Icc.mpr ⟨h1, h2⟩)

theorem int_bounds_iff (a b : Int) (t : String) :
    int_bounds a b t = true ↔ ∃ v, pyParseInt t = some v ∧ a ≤ v ∧ v ≤ b := by
  unfold int_bounds
  cases h : pyParseInt t <;> simp [h]

theorem int_bounds_toString (a b v : Int) (h1 : -1 ≤ v) (h2 : v ≤ 660) :
    int_bounds a b (toString v) = decide (a ≤ v ∧ v ≤ b) := by
  unfold int_bounds
  rw [pyParseInt_toString v h1 h2]

/-! ## The well-formedness invariant

Each field permanently carries its channel declared bounds; its
committed value stays within them except that the HSV hue field can
also hold -1 (written by update_color on an achromatic color); the
validity flag always equals the bounder verdict on the current text;
panels are never left with signals blocked. -/

def FieldB (lo hi m : Int) (f : Field) : Bool :=
  decide (f.lo = lo) && decide (f.hi = hi) && decide (m ≤ f.value) &&
  decide (f.value ≤ hi) && (f.bounded == int_bounds lo hi f.text)

def ValuerInv (v : Valuer) : Bool :=
  !v.blocked &&
  match v.model, v.fields with
  | .RGBm, [f0, f1, f2] =>
    FieldB 0 255 0 f0 && FieldB 0 255 0 f1 && FieldB 0 255 0 f2
  | .HSVm, [f0, f1, f2] =>
    FieldB 0 359 (-1) f0 && FieldB 0 255 0 f1 && FieldB 0 255 0 f2
  | .CMYKm, [f0, f1, f2, f3] =>
    FieldB 0 255 0 f0 && FieldB 0 255 0 f1 && FieldB 0 255 0 f2 && FieldB 0 255 0 f3
  | _, _ => false

def SysInv (s : Sys) : Bool :=
  (s.rgbP.model == .RGBm) && (s.hsvP.model == .HSVm) && (s.cmykP.model == .CMYKm) &&
  ValuerInv s.rgbP && ValuerInv s.hsvP && ValuerInv s.cmykP

/-- The shape of every QColor that flows through the ring: invalid, or
a scaled 8-bit color in one of the three specs (with the hue slot a
sentinel or below 36000). -/
def Color8 (c : QColor) : Prop :=
  c = qcInvalid ∨
  (∃ a r g b : Nat, r ≤ 255 ∧ g ≤ 255 ∧ b ≤ 255 ∧
    c = ⟨.rgbS, a, 257 * r, 257 * g, 257 * b, 0⟩) ∨
  (∃ a h s v : Nat, (h = 65535 ∨ h ≤ 35999) ∧ s ≤ 255 ∧ v ≤ 255 ∧
    c = ⟨.hsvS, a, h, 257 * s, 257 * v, 0⟩) ∨
  (∃ a x m y k : Nat, x ≤ 255 ∧ m ≤ 255 ∧ y ≤ 255 ∧ k ≤ 255 ∧
    c = ⟨.cmykS, a, 257 * x, 257 * m, 257 * y, 257 * k⟩)

/-- One user-triggered operation of the running application. -/
inductive Step (s : Sys) : Sys → Prop
  | edit (fuel : Nat) (i : PIdx) (k : Nat) (t : String) (s' : Sys)
      (h : Sys.userEdit fuel s i k t = some s') : Step s s'
  | finish (fuel : Nat) (i : PIdx) (k : Nat) (s' : Sys)
      (h : Sys.userFinish fuel s i k = some s') : Step s s'
  | pick (fuel : Nat) (dlg : QColor) (s' : Sys) (hd : DialogResult dlg)
      (h : Sys.pick_color fuel s dlg = some s') : Step s s'

/-- States the application can be in after startup. -/
def Reachable (s : Sys) : Prop := Relation.ReflTransGen Step initSys s

def Sys.countOf (s : Sys) : PIdx → Nat
  | .pRGB => s.counts.1
  | .pHSV => s.counts.2.1
  | .pCMYK => s.counts.2.2

def Sys.recvsOf (s : Sys) : PIdx → List QColor
  | .pRGB => s.recvs.1
  | .pHSV => s.recvs.2.1
  | .pCMYK => s.recvs.2.2

example : SysInv initSys = true := by decide


/-! ## Bounds of the ten channel accessors on the colors the program builds -/

theorem hsvHueOf_bounds (c : QColor) (h : c.c1 = 65535 ∨ c.c1 ≤ 35999) :
    -1 ≤ hsvHueOf c ∧ hsvHueOf c ≤ 359 := by
  unfold hsvHueOf
  rcases h with h | h
  · rw [if_pos h]
    exact ⟨le_refl _, by norm_num⟩
  · rw [if_neg (by omega)]
    constructor <;> omega

/-- Every channel accessor of a program color reads an in-range 8-bit
value (hue additionally admitting the achromatic -1). -/
theorem accessor_bounds (c : QColor) (hc : Color8 c) :
    c.red ≤ 255 ∧ c.green ≤ 255 ∧ c.blue ≤ 255 ∧
    -1 ≤ c.hue ∧ c.hue ≤ 359 ∧ c.saturation ≤ 255 ∧ c.value ≤ 255 ∧
    c.cyan ≤ 255 ∧ c.magenta ≤ 255 ∧ c.yellow ≤ 255 ∧ c.black ≤ 255 := by
  rcases hc with rfl | ⟨a, r, g, b, hr, hg, hb, rfl⟩ |
    ⟨a, h, s, v, hh, hs, hv, rfl⟩ | ⟨a, x, m, y, k, hx, hm, hy, hk, rfl⟩
  · decide
  · obtain ⟨-, hs2, hs3⟩ :=
      rgbRawToHsv_sv a (257 * r) (257 * g) (257 * b) (by omega) (by omega) (by omega)
    obtain ⟨-, hc1, hc2, hc3, hc4⟩ :=
      rgbRawToCmyk_le a (257 * r) (257 * g) (257 * b) (by omega) (by omega) (by omega)
    have hhue := rgbRawToHsv_hue a 255 r g b (le_refl 255) hr hg hb
    rw [gammaRound_255, gammaRound_255, gammaRound_255] at hhue
    obtain ⟨hh1, hh2⟩ := hsvHueOf_bounds (rgbRawToHsv a (257 * r) (257 * g) (257 * b)) hhue
    refine ⟨?_, ?_, ?_, ?_, ?_, ?_, ?_, ?_, ?_, ?_, ?_⟩
    · show qt_div_257 (257 * r) ≤ 255
      rw [qt_div_257_mul r hr]
      exact hr
    · show qt_div_257 (257 * g) ≤ 255
      rw [qt_div_257_mul g hg]
      exact hg
    · show qt_div_257 (257 * b) ≤ 255
      rw [qt_div_257_mul b hb]
      exact hb
    · exact hh1
    · exact hh2
    · exact qt_div_257_le _ hs2
    · exact qt_div_257_le _ hs3
    · exact qt_div_257_le _ hc1
    · exact qt_div_257_le _ hc2
    · exact qt_div_257_le _ hc3
    · exact qt_div_257_le _ hc4
  · obtain ⟨-, hr1, hr2, hr3⟩ :=
      hsvRawToRgb_le a h (257 * s) (257 * v) (by omega) (by omega)
    obtain ⟨-, hk1, hk2, hk3, hk4⟩ :=
      rgbRawToCmyk_le (hsvRawToRgb a h (257 * s) (257 * v)).alpha
        (hsvRawToRgb a h (257 * s) (257 * v)).c1
        (hsvRawToRgb a h (257 * s) (257 * v)).c2
        (hsvRawToRgb a h (257 * s) (257 * v)).c3 hr1 hr2 hr3
    obtain ⟨hh1, hh2⟩ :=
      hsvHueOf_bounds (⟨.hsvS, a, h, 257 * s, 257 * v, 0⟩ : QColor) hh
    refine ⟨qt_div_257_le _ hr1, qt_div_257_le _ hr2, qt_div_257_le _ hr3,
      hh1, hh2, ?_, ?_, qt_div_257_le _ hk1, qt_div_257_le _ hk2,
      qt_div_257_le _ hk3, qt_div_257_le _ hk4⟩
    · show qt_div_257 (257 * s) ≤ 255
      rw [qt_div_257_mul s hs]
      exact hs
    · show qt_div_257 (257 * v) ≤ 255
      rw [qt_div_257_mul v hv]
      exact hv
  · obtain ⟨-, hd1, hd2, hd3, -, -⟩ :=
      cmykRawToRgb_le a (257 * x) (257 * m) (257 * y) (257 * k)
        (by omega) (by omega) (by omega) (by omega)
    obtain ⟨-, hs2, hs3⟩ :=
      rgbRawToHsv_sv (cmykRawToRgb a (257 * x) (257 * m) (257 * y) (257 * k)).alpha
        (cmykRawToRgb a (257 * x) (257 * m) (257 * y) (257 * k)).c1
        (cmykRawToRgb a (257 * x) (257 * m) (257 * y) (257 * k)).c2
        (cmykRawToRgb a (257 * x) (257 * m) (257 * y) (257 * k)).c3 hd1 hd2 hd3
    have hhue := rgbRawToHsv_hue a (255 - k) (255 - x) (255 - m) (255 - y)
      (by omega) (by omega) (by omega) (by omega)
    have h8 := cmykRawToRgb_8bit a x m y k hx hm hy hk
    obtain ⟨hh1, hh2⟩ :=
      hsvHueOf_bounds (rgbRawToHsv
        (cmykRawToRgb a (257 * x) (257 * m) (257 * y) (257 * k)).alpha
        (cmykRawToRgb a (257 * x) (257 * m) (257 * y) (257 * k)).c1
        (cmykRawToRgb a (257 * x) (257 * m) (257 * y) (257 * k)).c2
        (cmykRawToRgb a (257 * x) (257 * m) (257 * y) (257 * k)).c3)
        (by rw [h8]; exact hhue)
    refine ⟨qt_div_257_le _ hd1, qt_div_257_le _ hd2, qt_div_257_le _ hd3,
      hh1, hh2, qt_div_257_le _ hs2, qt_div_257_le _ hs3, ?_, ?_, ?_, ?_⟩
    · show qt_div_257 (257 * x) ≤ 255
      rw [qt_div_257_mul x hx]
      exact hx
    · show qt_div_257 (257 * m) ≤ 255
      rw [qt_div_257_mul m hm]
      exact hm
    · show qt_div_257 (257 * y) ≤ 255
      rw [qt_div_257_mul y hy]
      exact hy
    · show qt_div_257 (257 * k) ≤ 255
      rw [qt_div_257_mul k hk]
      exact hk


/-! ## Preservation of the invariant by the widget operations -/

theorem FieldB_iff (lo hi m : Int) (f : Field) :
    FieldB lo hi m f = true ↔
      f.lo = lo ∧ f.hi = hi ∧ m ≤ f.value ∧ f.value ≤ hi ∧
        f.bounded = int_bounds lo hi f.text := by
  unfold FieldB
  simp only [Bool.and_eq_true, decide_eq_true_eq, beq_iff_eq]
  tauto

theorem afterFieldFired_blocked (v : Valuer) (fired : Bool) (h : v.blocked = true) :
    v.afterFieldFired fired = none := by
  unfold Valuer.afterFieldFired
  rw [if_neg (fun hcon => hcon.2 h)]

/-- Any text assignment keeps the field's bounds, keeps its committed
value within them, and keeps the validity flag faithful to the text. -/
theorem FieldB_setText (lo hi m : Int) (f : Field) (t : String) (hm : m ≤ lo)
    (hf : FieldB lo hi m f = true) : FieldB lo hi m (Field.setText f t).1 = true := by
  obtain ⟨hlo, hhi, hv1, hv2, hb⟩ := (FieldB_iff lo hi m f).mp hf
  rw [FieldB_iff]
  unfold Field.setText
  by_cases h1 : t = f.text
  · rw [if_pos h1]
    exact ⟨hlo, hhi, hv1, hv2, hb⟩
  · rw [if_neg h1]
    unfold Field.on_text_changed
    by_cases h2 : int_bounds f.lo f.hi t = true
    · rw [hlo, hhi] at h2
      obtain ⟨w, hw, hw1, hw2⟩ := (int_bounds_iff lo hi t).mp h2
      simp [hlo, hhi, h2, hw]
      omega
    · rw [hlo, hhi] at h2
      simp [hlo, hhi, h2]
      omega

/-- set_value writes the committed value and its decimal rendering;
the nested textChanged re-derives the same value, so the committed
value is exactly the written one. -/
theorem set_value_spec (f : Field) (v : Int) (h1 : -1 ≤ v) (h2 : v ≤ 660) :
    (Field.set_value f v).1.lo = f.lo ∧ (Field.set_value f v).1.hi = f.hi ∧
    (Field.set_value f v).1.value = v ∧ (Field.set_value f v).1.text = toString v := by
  unfold Field.set_value Field.setText
  by_cases he : toString v = f.text
  · rw [if_pos he]
    exact ⟨rfl, rfl, rfl, he.symm⟩
  · rw [if_neg he]
    unfold Field.on_text_changed
    by_cases h3 : int_bounds f.lo f.hi (toString v) = true
    · simp [h3, pyParseInt_toString v h1 h2]
    · simp [h3]

/-- set_value with an in-range value (or the hue -1) preserves the
field invariant. -/
theorem FieldB_set_value (lo hi m : Int) (f : Field) (v : Int)
    (hf : FieldB lo hi m f = true) (hm1 : m ≤ v) (hm2 : v ≤ hi)
    (hlow : -1 ≤ m) (hcap : hi ≤ 660) :
    FieldB lo hi m (Field.set_value f v).1 = true := by
  obtain ⟨hlo, hhi, hv1, hv2, hb⟩ := (FieldB_iff lo hi m f).mp hf
  rw [FieldB_iff]
  obtain ⟨slo, shi, sval, stxt⟩ := set_value_spec f v (by omega) (by omega)
  refine ⟨slo.trans hlo, shi.trans hhi, by omega, by omega, ?_⟩
  unfold Field.set_value Field.setText
  by_cases he : toString v = f.text
  · rw [if_pos he]
    show f.bounded = int_bounds lo hi f.text
    exact hb
  · rw [if_neg he]
    unfold Field.on_text_changed
    by_cases h3 : int_bounds f.lo f.hi (toString v) = true
    · simp only [h3, if_true]
      show true = int_bounds lo hi (toString v)
      rw [hlo, hhi] at h3
      exact h3.symm
    · simp only [h3, if_false, Bool.false_eq_true]
      show false = int_bounds lo hi (toString v)
      rw [hlo, hhi] at h3
      simp [h3]


/-- update_color on a well-formed panel with a program color: no
emission escapes the blocking, the invariant is preserved, and every
field's committed value and text are the corresponding wrapped
channel. -/
theorem update_color_spec (v : Valuer) (c : QColor) (hv : ValuerInv v = true)
    (hc : Color8 c) :
    (v.update_color c).2 = [] ∧
    ValuerInv (v.update_color c).1 = true ∧
    (v.update_color c).1.model = v.model ∧
    (v.update_color c).1.fields.map Field.get_value = wrapChannels v.model c ∧
    (v.update_color c).1.fields.map Field.text = (wrapChannels v.model c).map toString := by
  obtain ⟨hred, hgreen, hblue, hhue1, hhue2, hsat, hval, hcy, hmg, hyl, hbk⟩ :=
    accessor_bounds c hc
  obtain ⟨mdl, flds, bl⟩ := v
  cases mdl
  case RGBm =>
    rcases flds with _ | ⟨f0, _ | ⟨f1, _ | ⟨f2, _ | ⟨f3, rest⟩⟩⟩⟩ <;>
      simp only [ValuerInv, Bool.and_eq_true, Bool.not_eq_true', Bool.and_false,
        Bool.false_eq_true, and_false, false_and] at hv
    obtain ⟨hbl, ⟨hF0, hF1⟩, hF2⟩ := hv
    obtain ⟨l0, i0, v0, t0⟩ := set_value_spec f0 (c.red : Int) (by omega) (by omega)
    obtain ⟨l1, i1, v1, t1⟩ := set_value_spec f1 (c.green : Int) (by omega) (by omega)
    obtain ⟨l2, i2, v2, t2⟩ := set_value_spec f2 (c.blue : Int) (by omega) (by omega)
    have b0 := FieldB_set_value 0 255 0 f0 (c.red : Int) hF0 (by omega) (by omega)
      (by norm_num) (by norm_num)
    have b1 := FieldB_set_value 0 255 0 f1 (c.green : Int) hF1 (by omega) (by omega)
      (by norm_num) (by norm_num)
    have b2 := FieldB_set_value 0 255 0 f2 (c.blue : Int) hF2 (by omega) (by omega)
      (by norm_num) (by norm_num)
    refine ⟨?_, ?_, ?_, ?_, ?_⟩ <;>
      simp [Valuer.update_color, wrapChannels, Valuer.setValues, Valuer.set_value_at,
        Valuer.setField, afterFieldFired_blocked, RGB.wrap_color, ValuerInv,
        Bool.and_eq_true, b0, b1, b2, Field.get_value, v0, v1, v2, t0, t1, t2]
  case HSVm =>
    rcases flds with _ | ⟨f0, _ | ⟨f1, _ | ⟨f2, _ | ⟨f3, rest⟩⟩⟩⟩ <;>
      simp only [ValuerInv, Bool.and_eq_true, Bool.not_eq_true', Bool.and_false,
        Bool.false_eq_true, and_false, false_and] at hv
    obtain ⟨hbl, ⟨hF0, hF1⟩, hF2⟩ := hv
    obtain ⟨l0, i0, v0, t0⟩ := set_value_spec f0 c.hue (by omega) (by omega)
    obtain ⟨l1, i1, v1, t1⟩ := set_value_spec f1 (c.saturation : Int) (by omega) (by omega)
    obtain ⟨l2, i2, v2, t2⟩ := set_value_spec f2 (c.value : Int) (by omega) (by omega)
    have b0 := FieldB_set_value 0 359 (-1) f0 c.hue hF0 (by omega) (by omega)
      (by norm_num) (by norm_num)
    have b1 := FieldB_set_value 0 255 0 f1 (c.saturation : Int) hF1 (by omega) (by omega)
      (by norm_num) (by norm_num)
    have b2 := FieldB_set_value 0 255 0 f2 (c.value : Int) hF2 (by omega) (by omega)
      (by norm_num) (by norm_num)
    refine ⟨?_, ?_, ?_, ?_, ?_⟩ <;>
      simp [Valuer.update_color, wrapChannels, Valuer.setValues, Valuer.set_value_at,
        Valuer.setField, afterFieldFired_blocked, HSV.wrap_color, ValuerInv,
        Bool.and_eq_true, b0, b1, b2, Field.get_value, v0, v1, v2, t0, t1, t2]
  case CMYKm =>
    rcases flds with _ | ⟨f0, _ | ⟨f1, _ | ⟨f2, _ | ⟨f3, _ | ⟨f4, rest⟩⟩⟩⟩⟩ <;>
      simp only [ValuerInv, Bool.and_eq_true, Bool.not_eq_true', Bool.and_false,
        Bool.false_eq_true, and_false, false_and] at hv
    obtain ⟨hbl, ⟨⟨hF0, hF1⟩, hF2⟩, hF3⟩ := hv
    obtain ⟨l0, i0, v0, t0⟩ := set_value_spec f0 (c.cyan : Int) (by omega) (by omega)
    obtain ⟨l1, i1, v1, t1⟩ := set_value_spec f1 (c.magenta : Int) (by omega) (by omega)
    obtain ⟨l2, i2, v2, t2⟩ := set_value_spec f2 (c.yellow : Int) (by omega) (by omega)
    obtain ⟨l3, i3, v3, t3⟩ := set_value_spec f3 (c.black : Int) (by omega) (by omega)
    have b0 := FieldB_set_value 0 255 0 f0 (c.cyan : Int) hF0 (by omega) (by omega)
      (by norm_num) (by norm_num)
    have b1 := FieldB_set_value 0 255 0 f1 (c.magenta : Int) hF1 (by omega) (by omega)
      (by norm_num) (by norm_num)
    have b2 := FieldB_set_value 0 255 0 f2 (c.yellow : Int) hF2 (by omega) (by omega)
      (by norm_num) (by norm_num)
    have b3 := FieldB_set_value 0 255 0 f3 (c.black : Int) hF3 (by omega) (by omega)
      (by norm_num) (by norm_num)
    refine ⟨?_, ?_, ?_, ?_, ?_⟩ <;>
      simp [Valuer.update_color, wrapChannels, Valuer.setValues, Valuer.set_value_at,
        Valuer.setField, afterFieldFired_blocked, CMYK.wrap_color, ValuerInv,
        Bool.and_eq_true, b0, b1, b2, b3, Field.get_value, v0, v1, v2, v3, t0, t1, t2, t3]

/-- The color composed from a well-formed panel's committed values is
a program color, and constructing it never fails. -/
theorem get_color_Color8 (v : Valuer) (hv : ValuerInv v = true) :
    Color8 v.get_color ∧ v.get_color ≠ qcInvalid := by
  obtain ⟨mdl, flds, bl⟩ := v
  cases mdl
  case RGBm =>
    rcases flds with _ | ⟨f0, _ | ⟨f1, _ | ⟨f2, _ | ⟨f3, rest⟩⟩⟩⟩ <;>
      simp only [ValuerInv, Bool.and_eq_true, Bool.not_eq_true', Bool.and_false,
        Bool.false_eq_true, and_false, false_and] at hv
    obtain ⟨hbl, ⟨hF0, hF1⟩, hF2⟩ := hv
    obtain ⟨-, -, h00, h01, -⟩ := (FieldB_iff _ _ _ f0).mp hF0
    obtain ⟨-, -, h10, h11, -⟩ := (FieldB_iff _ _ _ f1).mp hF1
    obtain ⟨-, -, h20, h21, -⟩ := (FieldB_iff _ _ _ f2).mp hF2
    rw [show Valuer.get_color ⟨.RGBm, [f0, f1, f2], bl⟩ =
      mkRgb f0.value f1.value f2.value from rfl]
    unfold mkRgb
    rw [if_pos (by omega)]
    constructor
    · exact Or.inr (Or.inl ⟨65535, f0.value.toNat, f1.value.toNat, f2.value.toNat,
        by omega, by omega, by omega, rfl⟩)
    · intro hcon
      simp [qcInvalid, QColor.mk.injEq] at hcon
  case HSVm =>
    rcases flds with _ | ⟨f0, _ | ⟨f1, _ | ⟨f2, _ | ⟨f3, rest⟩⟩⟩⟩ <;>
      simp only [ValuerInv, Bool.and_eq_true, Bool.not_eq_true', Bool.and_false,
        Bool.false_eq_true, and_false, false_and] at hv
    obtain ⟨hbl, ⟨hF0, hF1⟩, hF2⟩ := hv
    obtain ⟨-, -, h00, h01, -⟩ := (FieldB_iff _ _ _ f0).mp hF0
    obtain ⟨-, -, h10, h11, -⟩ := (FieldB_iff _ _ _ f1).mp hF1
    obtain ⟨-, -, h20, h21, -⟩ := (FieldB_iff _ _ _ f2).mp hF2
    rw [show Valuer.get_color ⟨.HSVm, [f0, f1, f2], bl⟩ =
      mkHsv f0.value f1.value f2.value from rfl]
    unfold mkHsv
    rw [if_neg (by omega)]
    constructor
    · refine Or.inr (Or.inr (Or.inl ⟨65535,
        if f0.value = -1 then 65535 else 100 * (f0.value.toNat % 360),
        f1.value.toNat, f2.value.toNat, ?_, by omega, by omega, rfl⟩))
      split_ifs with h
      · exact Or.inl rfl
      · right
        omega
    · intro hcon
      simp [qcInvalid, QColor.mk.injEq] at hcon
  case CMYKm =>
    rcases flds with _ | ⟨f0, _ | ⟨f1, _ | ⟨f2, _ | ⟨f3, _ | ⟨f4, rest⟩⟩⟩⟩⟩ <;>
      simp only [ValuerInv, Bool.and_eq_true, Bool.not_eq_true', Bool.and_false,
        Bool.false_eq_true, and_false, false_and] at hv
    obtain ⟨hbl, ⟨⟨hF0, hF1⟩, hF2⟩, hF3⟩ := hv
    obtain ⟨-, -, h00, h01, -⟩ := (FieldB_iff _ _ _ f0).mp hF0
    obtain ⟨-, -, h10, h11, -⟩ := (FieldB_iff _ _ _ f1).mp hF1
    obtain ⟨-, -, h20, h21, -⟩ := (FieldB_iff _ _ _ f2).mp hF2
    obtain ⟨-, -, h30, h31, -⟩ := (FieldB_iff _ _ _ f3).mp hF3
    rw [show Valuer.get_color ⟨.CMYKm, [f0, f1, f2, f3], bl⟩ =
      mkCmyk f0.value f1.value f2.value f3.value from rfl]
    unfold mkCmyk
    rw [if_neg (by omega)]
    constructor
    · exact Or.inr (Or.inr (Or.inr ⟨65535, f0.value.toNat, f1.value.toNat,
        f2.value.toNat, f3.value.toNat, by omega, by omega, by omega, by omega, rfl⟩))
    · intro hcon
      simp [qcInvalid, QColor.mk.injEq] at hcon


/-! ## The coordinator: one slot call, the full dispatch -/

theorem afterFieldFired_some (v : Valuer) (b : Bool) (c : QColor)
    (h : v.afterFieldFired b = some c) : c = v.get_color := by
  unfold Valuer.afterFieldFired at h
  split_ifs at h
  cases h
  rfl

/-- Running update_color on one panel: nothing escapes, the invariant
holds again, the recorded color and swatch are untouched, and exactly
the target panel's ghost count and received-color log advance. -/
theorem applyUpdate_spec (s : Sys) (j : PIdx) (c : QColor) (hs : SysInv s = true)
    (hc : Color8 c) :
    (s.applyUpdate j c).2 = [] ∧
    SysInv (s.applyUpdate j c).1 = true ∧
    (s.applyUpdate j c).1.color = s.color ∧
    (s.applyUpdate j c).1.label = s.label ∧
    (∀ i, (s.applyUpdate j c).1.countOf i = s.countOf i + (if i = j then 1 else 0)) ∧
    (∀ i, (s.applyUpdate j c).1.recvsOf i = s.recvsOf i ++ (if i = j then [c] else [])) := by
  simp only [SysInv, Bool.and_eq_true, beq_iff_eq] at hs
  obtain ⟨⟨⟨⟨⟨hmr, hmh⟩, hmc⟩, hr⟩, hh2⟩, hc2⟩ := hs
  cases j
  case pRGB =>
    obtain ⟨hemit, hinv, hmodel, -, -⟩ := update_color_spec s.rgbP c hr hc
    refine ⟨hemit, ?_, rfl, rfl, ?_, ?_⟩
    · simp only [Sys.applyUpdate, Sys.setPanel, Sys.bumpGhost, SysInv,
        Bool.and_eq_true, beq_iff_eq]
      exact ⟨⟨⟨⟨⟨hmodel.trans hmr, hmh⟩, hmc⟩, hinv⟩, hh2⟩, hc2⟩
    · intro i
      cases i <;> simp [Sys.countOf, Sys.applyUpdate, Sys.setPanel, Sys.bumpGhost]
    · intro i
      cases i <;> simp [Sys.recvsOf, Sys.applyUpdate, Sys.setPanel, Sys.bumpGhost]
  case pHSV =>
    obtain ⟨hemit, hinv, hmodel, -, -⟩ := update_color_spec s.hsvP c hh2 hc
    refine ⟨hemit, ?_, rfl, rfl, ?_, ?_⟩
    · simp only [Sys.applyUpdate, Sys.setPanel, Sys.bumpGhost, SysInv,
        Bool.and_eq_true, beq_iff_eq]
      exact ⟨⟨⟨⟨⟨hmr, hmodel.trans hmh⟩, hmc⟩, hr⟩, hinv⟩, hc2⟩
    · intro i
      cases i <;> simp [Sys.countOf, Sys.applyUpdate, Sys.setPanel, Sys.bumpGhost]
    · intro i
      cases i <;> simp [Sys.recvsOf, Sys.applyUpdate, Sys.setPanel, Sys.bumpGhost]
  case pCMYK =>
    obtain ⟨hemit, hinv, hmodel, -, -⟩ := update_color_spec s.cmykP c hc2 hc
    refine ⟨hemit, ?_, rfl, rfl, ?_, ?_⟩
    · simp only [Sys.applyUpdate, Sys.setPanel, Sys.bumpGhost, SysInv,
        Bool.and_eq_true, beq_iff_eq]
      exact ⟨⟨⟨⟨⟨hmr, hmh⟩, hmodel.trans hmc⟩, hr⟩, hh2⟩, hinv⟩
    · intro i
      cases i <;> simp [Sys.countOf, Sys.applyUpdate, Sys.setPanel, Sys.bumpGhost]
    · intro i
      cases i <;> simp [Sys.recvsOf, Sys.applyUpdate, Sys.setPanel, Sys.bumpGhost]

/-- Synchronous dispatch of any pending calls whose colors are program
colors preserves the invariant (the blocking discipline keeps every
update_color from emitting). -/
theorem dispatch_inv (n : Nat) : ∀ (s : Sys) (calls : List SigCall),
    SysInv s = true → (∀ j c, SigCall.upd j c ∈ calls → Color8 c) →
    ∀ s', dispatch n s calls = some s' → SysInv s' = true := by
  induction n with
  | zero =>
    intro s calls hs _ s' h
    cases calls with
    | nil =>
      simp only [dispatch, Option.some.injEq] at h
      exact h ▸ hs
    | cons hd rest => simp [dispatch] at h
  | succ n ih =>
    intro s calls hs hc s' h
    cases calls with
    | nil =>
      simp only [dispatch, Option.some.injEq] at h
      exact h ▸ hs
    | cons hd rest =>
      cases hd with
      | upd j c =>
        have hcj := hc j c (List.mem_cons_self _ _)
        obtain ⟨e1, i1, -, -, -, -⟩ := applyUpdate_spec s j c hs hcj
        simp only [dispatch] at h
        rw [e1] at h
        simp only [List.map_nil, List.flatten_nil, List.nil_append] at h
        exact ih _ rest i1 (fun j' c' hm => hc j' c' (List.mem_cons_of_mem _ hm)) s' h
      | notif c =>
        simp only [dispatch] at h
        have hinv : SysInv (s.change_color_internally c) = SysInv s := rfl
        exact ih _ rest (hinv.trans hs ▸ hs) (fun j' c' hm => hc j' c' (List.mem_cons_of_mem _ hm)) s' h



/-- A user text edit on one field keeps the panel well-formed, keeps
its model, and any emitted color is the panel's freshly composed
color. -/
theorem textInput_spec (v : Valuer) (k : Nat) (t : String) (hv : ValuerInv v = true) :
    ValuerInv (v.textInput k t).1 = true ∧ (v.textInput k t).1.model = v.model ∧
    (∀ c, (v.textInput k t).2 = some c → c = (v.textInput k t).1.get_color) := by
  obtain ⟨mdl, flds, bl⟩ := v
  cases mdl
  case RGBm =>
    rcases flds with _ | ⟨f0, _ | ⟨f1, _ | ⟨f2, _ | ⟨f3, rest⟩⟩⟩⟩ <;>
      simp only [ValuerInv, Bool.and_eq_true, Bool.not_eq_true', Bool.and_false,
        Bool.false_eq_true, and_false, false_and] at hv
    obtain ⟨hbl, ⟨hF0, hF1⟩, hF2⟩ := hv
    subst hbl
    rcases k with _ | _ | _ | kk
    · refine ⟨?_, rfl, fun c hc => afterFieldFired_some _ _ c hc⟩
      simp only [Valuer.textInput, List.getElem?_cons_zero, List.getElem?_cons_succ,
        Valuer.setField, ValuerInv, Bool.and_eq_true, Bool.not_eq_true', List.set]
      exact ⟨trivial, ⟨FieldB_setText 0 255 (0) f0 t (by norm_num) hF0, hF1⟩, hF2⟩
    · refine ⟨?_, rfl, fun c hc => afterFieldFired_some _ _ c hc⟩
      simp only [Valuer.textInput, List.getElem?_cons_zero, List.getElem?_cons_succ,
        Valuer.setField, ValuerInv, Bool.and_eq_true, Bool.not_eq_true', List.set]
      exact ⟨trivial, ⟨hF0, FieldB_setText 0 255 (0) f1 t (by norm_num) hF1⟩, hF2⟩
    · refine ⟨?_, rfl, fun c hc => afterFieldFired_some _ _ c hc⟩
      simp only [Valuer.textInput, List.getElem?_cons_zero, List.getElem?_cons_succ,
        Valuer.setField, ValuerInv, Bool.and_eq_true, Bool.not_eq_true', List.set]
      exact ⟨trivial, ⟨hF0, hF1⟩, FieldB_setText 0 255 (0) f2 t (by norm_num) hF2⟩
    · refine ⟨?_, rfl, ?_⟩
      · simp only [Valuer.textInput, List.getElem?_cons_succ, List.getElem?_nil,
          ValuerInv, Bool.and_eq_true, Bool.not_eq_true']
        exact ⟨trivial, ⟨hF0, hF1⟩, hF2⟩
      · intro c hc
        simp [Valuer.textInput] at hc
  case HSVm =>
    rcases flds with _ | ⟨f0, _ | ⟨f1, _ | ⟨f2, _ | ⟨f3, rest⟩⟩⟩⟩ <;>
      simp only [ValuerInv, Bool.and_eq_true, Bool.not_eq_true', Bool.and_false,
        Bool.false_eq_true, and_false, false_and] at hv
    obtain ⟨hbl, ⟨hF0, hF1⟩, hF2⟩ := hv
    subst hbl
    rcases k with _ | _ | _ | kk
    · refine ⟨?_, rfl, fun c hc => afterFieldFired_some _ _ c hc⟩
      simp only [Valuer.textInput, List.getElem?_cons_zero, List.getElem?_cons_succ,
        Valuer.setField, ValuerInv, Bool.and_eq_true, Bool.not_eq_true', List.set]
      exact ⟨trivial, ⟨FieldB_setText 0 359 (-1) f0 t (by norm_num) hF0, hF1⟩, hF2⟩
    · refine ⟨?_, rfl, fun c hc => afterFieldFired_some _ _ c hc⟩
      simp only [Valuer.textInput, List.getElem?_cons_zero, List.getElem?_cons_succ,
        Valuer.setField, ValuerInv, Bool.and_eq_true, Bool.not_eq_true', List.set]
      exact ⟨trivial, ⟨hF0, FieldB_setText 0 255 (0) f1 t (by norm_num) hF1⟩, hF2⟩
    · refine ⟨?_, rfl, fun c hc => afterFieldFired_some _ _ c hc⟩
      simp only [Valuer.textInput, List.getElem?_cons_zero, List.getElem?_cons_succ,
        Valuer.setField, ValuerInv, Bool.and_eq_true, Bool.not_eq_true', List.set]
      exact ⟨trivial, ⟨hF0, hF1⟩, FieldB_setText 0 255 (0) f2 t (by norm_num) hF2⟩
    · refine ⟨?_, rfl, ?_⟩
      · simp only [Valuer.textInput, List.getElem?_cons_succ, List.getElem?_nil,
          ValuerInv, Bool.and_eq_true, Bool.not_eq_true']
        exact ⟨trivial, ⟨hF0, hF1⟩, hF2⟩
      · intro c hc
        simp [Valuer.textInput] at hc
  case CMYKm =>
    rcases flds with _ | ⟨f0, _ | ⟨f1, _ | ⟨f2, _ | ⟨f3, _ | ⟨f4, rest⟩⟩⟩⟩⟩ <;>
      simp only [ValuerInv, Bool.and_eq_true, Bool.not_eq_true', Bool.and_false,
        Bool.false_eq_true, and_false, false_and] at hv
    obtain ⟨hbl, ⟨⟨hF0, hF1⟩, hF2⟩, hF3⟩ := hv
    subst hbl
    rcases k with _ | _ | _ | _ | kk
    · refine ⟨?_, rfl, fun c hc => afterFieldFired_some _ _ c hc⟩
      simp only [Valuer.textInput, List.getElem?_cons_zero, List.getElem?_cons_succ,
        Valuer.setField, ValuerInv, Bool.and_eq_true, Bool.not_eq_true', List.set]
      exact ⟨trivial, ⟨⟨FieldB_setText 0 255 (0) f0 t (by norm_num) hF0, hF1⟩, hF2⟩, hF3⟩
    · refine ⟨?_, rfl, fun c hc => afterFieldFired_some _ _ c hc⟩
      simp only [Valuer.textInput, List.getElem?_cons_zero, List.getElem?_cons_succ,
        Valuer.setField, ValuerInv, Bool.and_eq_true, Bool.not_eq_true', List.set]
      exact ⟨trivial, ⟨⟨hF0, FieldB_setText 0 255 (0) f1 t (by norm_num) hF1⟩, hF2⟩, hF3⟩
    · refine ⟨?_, rfl, fun c hc => afterFieldFired_some _ _ c hc⟩
      simp only [Valuer.textInput, List.getElem?_cons_zero, List.getElem?_cons_succ,
        Valuer.setField, ValuerInv, Bool.and_eq_true, Bool.not_eq_true', List.set]
      exact ⟨trivial, ⟨⟨hF0, hF1⟩, FieldB_setText 0 255 (0) f2 t (by norm_num) hF2⟩, hF3⟩
    · refine ⟨?_, rfl, fun c hc => afterFieldFired_some _ _ c hc⟩
      simp only [Valuer.textInput, List.getElem?_cons_zero, List.getElem?_cons_succ,
        Valuer.setField, ValuerInv, Bool.and_eq_true, Bool.not_eq_true', List.set]
      exact ⟨trivial, ⟨⟨hF0, hF1⟩, hF2⟩, FieldB_setText 0 255 (0) f3 t (by norm_num) hF3⟩
    · refine ⟨?_, rfl, ?_⟩
      · simp only [Valuer.textInput, List.getElem?_cons_succ, List.getElem?_nil,
          ValuerInv, Bool.and_eq_true, Bool.not_eq_true']
        exact ⟨trivial, ⟨⟨hF0, hF1⟩, hF2⟩, hF3⟩
      · intro c hc
        simp [Valuer.textInput] at hc


/-- Completing an edit keeps the field's bounds, its committed value
and the faithfulness of the validity flag (the pushed-back text is the
committed value's rendering). -/
theorem FieldB_finish (lo hi m : Int) (f : Field) (hm : m ≤ lo)
    (hf : FieldB lo hi m f = true) :
    FieldB lo hi m (Field.on_text_finished f).1 = true := by
  have h1 := FieldB_setText lo hi m f (toString f.value) hm hf
  rw [FieldB_iff] at h1 ⊢
  unfold Field.on_text_finished
  simpa using h1

/-- Edit completion on one field keeps the panel well-formed, keeps
its model, and any emitted color is the panel's freshly composed
color. -/
theorem finishAt_spec (v : Valuer) (k : Nat) (hv : ValuerInv v = true) :
    ValuerInv (v.finishAt k).1 = true ∧ (v.finishAt k).1.model = v.model ∧
    (∀ c, (v.finishAt k).2 = some c → c = (v.finishAt k).1.get_color) := by
  obtain ⟨mdl, flds, bl⟩ := v
  cases mdl
  case RGBm =>
    rcases flds with _ | ⟨f0, _ | ⟨f1, _ | ⟨f2, _ | ⟨f3, rest⟩⟩⟩⟩ <;>
      simp only [ValuerInv, Bool.and_eq_true, Bool.not_eq_true', Bool.and_false,
        Bool.false_eq_true, and_false, false_and] at hv
    obtain ⟨hbl, ⟨hF0, hF1⟩, hF2⟩ := hv
    subst hbl
    rcases k with _ | _ | _ | kk
    · refine ⟨?_, rfl, fun c hc => afterFieldFired_some _ _ c hc⟩
      simp only [Valuer.finishAt, List.getElem?_cons_zero, List.getElem?_cons_succ,
        Valuer.setField, ValuerInv, Bool.and_eq_true, Bool.not_eq_true', List.set]
      exact ⟨trivial, ⟨FieldB_finish 0 255 (0) f0 (by norm_num) hF0, hF1⟩, hF2⟩
    · refine ⟨?_, rfl, fun c hc => afterFieldFired_some _ _ c hc⟩
      simp only [Valuer.finishAt, List.getElem?_cons_zero, List.getElem?_cons_succ,
        Valuer.setField, ValuerInv, Bool.and_eq_true, Bool.not_eq_true', List.set]
      exact ⟨trivial, ⟨hF0, FieldB_finish 0 255 (0) f1 (by norm_num) hF1⟩, hF2⟩
    · refine ⟨?_, rfl, fun c hc => afterFieldFired_some _ _ c hc⟩
      simp only [Valuer.finishAt, List.getElem?_cons_zero, List.getElem?_cons_succ,
        Valuer.setField, ValuerInv, Bool.and_eq_true, Bool.not_eq_true', List.set]
      exact ⟨trivial, ⟨hF0, hF1⟩, FieldB_finish 0 255 (0) f2 (by norm_num) hF2⟩
    · refine ⟨?_, rfl, ?_⟩
      · simp only [Valuer.finishAt, List.getElem?_cons_succ, List.getElem?_nil,
          ValuerInv, Bool.and_eq_true, Bool.not_eq_true']
        exact ⟨trivial, ⟨hF0, hF1⟩, hF2⟩
      · intro c hc
        simp [Valuer.finishAt] at hc
  case HSVm =>
    rcases flds with _ | ⟨f0, _ | ⟨f1, _ | ⟨f2, _ | ⟨f3, rest⟩⟩⟩⟩ <;>
      simp only [ValuerInv, Bool.and_eq_true, Bool.not_eq_true', Bool.and_false,
        Bool.false_eq_true, and_false, false_and] at hv
    obtain ⟨hbl, ⟨hF0, hF1⟩, hF2⟩ := hv
    subst hbl
    rcases k with _ | _ | _ | kk
    · refine ⟨?_, rfl, fun c hc => afterFieldFired_some _ _ c hc⟩
      simp only [Valuer.finishAt, List.getElem?_cons_zero, List.getElem?_cons_succ,
        Valuer.setField, ValuerInv, Bool.and_eq_true, Bool.not_eq_true', List.set]
      exact ⟨trivial, ⟨FieldB_finish 0 359 (-1) f0 (by norm_num) hF0, hF1⟩, hF2⟩
    · refine ⟨?_, rfl, fun c hc => afterFieldFired_some _ _ c hc⟩
      simp only [Valuer.finishAt, List.getElem?_cons_zero, List.getElem?_cons_succ,
        Valuer.setField, ValuerInv, Bool.and_eq_true, Bool.not_eq_true', List.set]
      exact ⟨trivial, ⟨hF0, FieldB_finish 0 255 (0) f1 (by norm_num) hF1⟩, hF2⟩
    · refine ⟨?_, rfl, fun c hc => afterFieldFired_some _ _ c hc⟩
      simp only [Valuer.finishAt, List.getElem?_cons_zero, List.getElem?_cons_succ,
        Valuer.setField, ValuerInv, Bool.and_eq_true, Bool.not_eq_true', List.set]
      exact ⟨trivial, ⟨hF0, hF1⟩, FieldB_finish 0 255 (0) f2 (by norm_num) hF2⟩
    · refine ⟨?_, rfl, ?_⟩
      · simp only [Valuer.finishAt, List.getElem?_cons_succ, List.getElem?_nil,
          ValuerInv, Bool.and_eq_true, Bool.not_eq_true']
        exact ⟨trivial, ⟨hF0, hF1⟩, hF2⟩
      · intro c hc
        simp [Valuer.finishAt] at hc
  case CMYKm =>
    rcases flds with _ | ⟨f0, _ | ⟨f1, _ | ⟨f2, _ | ⟨f3, _ | ⟨f4, rest⟩⟩⟩⟩⟩ <;>
      simp only [ValuerInv, Bool.and_eq_true, Bool.not_eq_true', Bool.and_false,
        Bool.false_eq_true, and_false, false_and] at hv
    obtain ⟨hbl, ⟨⟨hF0, hF1⟩, hF2⟩, hF3⟩ := hv
    subst hbl
    rcases k with _ | _ | _ | _ | kk
    · refine ⟨?_, rfl, fun c hc => afterFieldFired_some _ _ c hc⟩
      simp only [Valuer.finishAt, List.getElem?_cons_zero, List.getElem?_cons_succ,
        Valuer.setField, ValuerInv, Bool.and_eq_true, Bool.not_eq_true', List.set]
      exact ⟨trivial, ⟨⟨FieldB_finish 0 255 (0) f0 (by norm_num) hF0, hF1⟩, hF2⟩, hF3⟩
    · refine ⟨?_, rfl, fun c hc => afterFieldFired_some _ _ c hc⟩
      simp only [Valuer.finishAt, List.getElem?_cons_zero, List.getElem?_cons_succ,
        Valuer.setField, ValuerInv, Bool.and_eq_true, Bool.not_eq_true', List.set]
      exact ⟨trivial, ⟨⟨hF0, FieldB_finish 0 255 (0) f1 (by norm_num) hF1⟩, hF2⟩, hF3⟩
    · refine ⟨?_, rfl, fun c hc => afterFieldFired_some _ _ c hc⟩
      simp only [Valuer.finishAt, List.getElem?_cons_zero, List.getElem?_cons_succ,
        Valuer.setField, ValuerInv, Bool.and_eq_true, Bool.not_eq_true', List.set]
      exact ⟨trivial, ⟨⟨hF0, hF1⟩, FieldB_finish 0 255 (0) f2 (by norm_num) hF2⟩, hF3⟩
    · refine ⟨?_, rfl, fun c hc => afterFieldFired_some _ _ c hc⟩
      simp only [Valuer.finishAt, List.getElem?_cons_zero, List.getElem?_cons_succ,
        Valuer.setField, ValuerInv, Bool.and_eq_true, Bool.not_eq_true', List.set]
      exact ⟨trivial, ⟨⟨hF0, hF1⟩, hF2⟩, FieldB_finish 0 255 (0) f3 (by norm_num) hF3⟩
    · refine ⟨?_, rfl, ?_⟩
      · simp only [Valuer.finishAt, List.getElem?_cons_succ, List.getElem?_nil,
          ValuerInv, Bool.and_eq_true, Bool.not_eq_true']
        exact ⟨trivial, ⟨⟨hF0, hF1⟩, hF2⟩, hF3⟩
      · intro c hc
        simp [Valuer.finishAt] at hc


/-- Dispatching the three slot calls of one color_changed emission
from panel i (with enough fuel for the three synchronous calls): each
of the other two panels receives exactly one update carrying the
emitted color, the originating panel receives none, the coordinator
records the color and restyles the swatch, and the invariant is
preserved. -/
theorem dispatch_expand (fuel : Nat) (s : Sys) (i : PIdx) (c : QColor)
    (hf : 3 ≤ fuel) (hs : SysInv s = true) (hc : Color8 c) :
    ∃ s2, dispatch fuel s (expandEmission i c) = some s2 ∧
      SysInv s2 = true ∧ s2.color = c ∧ s2.label = change_label_color_str c ∧
      (∀ j, s2.countOf j = s.countOf j + (if j = i then 0 else 1)) ∧
      (∀ j, s2.recvsOf j = s.recvsOf j ++ (if j = i then [] else [c])) := by
  obtain ⟨n, rfl⟩ : ∃ n, fuel = n + 3 := ⟨fuel - 3, by omega⟩
  cases i
  case pRGB =>
    obtain ⟨e1, i1, c1, l1, n1, r1⟩ := applyUpdate_spec s .pHSV c hs hc
    obtain ⟨e2, i2, c2, l2, n2, r2⟩ :=
      applyUpdate_spec (s.applyUpdate .pHSV c).1 .pCMYK c i1 hc
    refine ⟨(((s.applyUpdate .pHSV c).1.applyUpdate .pCMYK c).1).change_color_internally c,
      ?_, i2, rfl, rfl, ?_, ?_⟩
    · show dispatch (n + 3) s [.upd .pHSV c, .upd .pCMYK c, .notif c] = some _
      simp only [dispatch, e1, e2, List.map_nil, List.flatten_nil, List.nil_append]
    · intro j
      rw [show Sys.countOf
        ((((s.applyUpdate .pHSV c).1.applyUpdate .pCMYK c).1).change_color_internally c) j =
        Sys.countOf (((s.applyUpdate .pHSV c).1.applyUpdate .pCMYK c).1) j from rfl,
        n2 j, n1 j]
      cases j <;> simp
    · intro j
      rw [show Sys.recvsOf
        ((((s.applyUpdate .pHSV c).1.applyUpdate .pCMYK c).1).change_color_internally c) j =
        Sys.recvsOf (((s.applyUpdate .pHSV c).1.applyUpdate .pCMYK c).1) j from rfl,
        r2 j, r1 j]
      cases j <;> simp
  case pHSV =>
    obtain ⟨e1, i1, c1, l1, n1, r1⟩ := applyUpdate_spec s .pRGB c hs hc
    obtain ⟨e2, i2, c2, l2, n2, r2⟩ :=
      applyUpdate_spec (s.applyUpdate .pRGB c).1 .pCMYK c i1 hc
    refine ⟨(((s.applyUpdate .pRGB c).1.applyUpdate .pCMYK c).1).change_color_internally c,
      ?_, i2, rfl, rfl, ?_, ?_⟩
    · show dispatch (n + 3) s [.upd .pRGB c, .upd .pCMYK c, .notif c] = some _
      simp only [dispatch, e1, e2, List.map_nil, List.flatten_nil, List.nil_append]
    · intro j
      rw [show Sys.countOf
        ((((s.applyUpdate .pRGB c).1.applyUpdate .pCMYK c).1).change_color_internally c) j =
        Sys.countOf (((s.applyUpdate .pRGB c).1.applyUpdate .pCMYK c).1) j from rfl,
        n2 j, n1 j]
      cases j <;> simp
    · intro j
      rw [show Sys.recvsOf
        ((((s.applyUpdate .pRGB c).1.applyUpdate .pCMYK c).1).change_color_internally c) j =
        Sys.recvsOf (((s.applyUpdate .pRGB c).1.applyUpdate .pCMYK c).1) j from rfl,
        r2 j, r1 j]
      cases j <;> simp
  case pCMYK =>
    obtain ⟨e1, i1, c1, l1, n1, r1⟩ := applyUpdate_spec s .pHSV c hs hc
    obtain ⟨e2, i2, c2, l2, n2, r2⟩ :=
      applyUpdate_spec (s.applyUpdate .pHSV c).1 .pRGB c i1 hc
    refine ⟨(((s.applyUpdate .pHSV c).1.applyUpdate .pRGB c).1).change_color_internally c,
      ?_, i2, rfl, rfl, ?_, ?_⟩
    · show dispatch (n + 3) s [.upd .pHSV c, .upd .pRGB c, .notif c] = some _
      simp only [dispatch, e1, e2, List.map_nil, List.flatten_nil, List.nil_append]
    · intro j
      rw [show Sys.countOf
        ((((s.applyUpdate .pHSV c).1.applyUpdate .pRGB c).1).change_color_internally c) j =
        Sys.countOf (((s.applyUpdate .pHSV c).1.applyUpdate .pRGB c).1) j from rfl,
        n2 j, n1 j]
      cases j <;> simp
    · intro j
      rw [show Sys.recvsOf
        ((((s.applyUpdate .pHSV c).1.applyUpdate .pRGB c).1).change_color_internally c) j =
        Sys.recvsOf (((s.applyUpdate .pHSV c).1.applyUpdate .pRGB c).1) j from rfl,
        r2 j, r1 j]
      cases j <;> simp


theorem panel_inv (s : Sys) (hs : SysInv s = true) (i : PIdx) :
    ValuerInv (s.panel i) = true := by
  simp only [SysInv, Bool.and_eq_true, beq_iff_eq] at hs
  obtain ⟨⟨⟨⟨⟨-, -⟩, -⟩, hr⟩, hh2⟩, hc2⟩ := hs
  cases i
  exacts [hr, hh2, hc2]

theorem setPanel_inv (s : Sys) (i : PIdx) (v : Valuer) (hs : SysInv s = true)
    (hv : ValuerInv v = true) (hm : v.model = (s.panel i).model) :
    SysInv (s.setPanel i v) = true := by
  simp only [SysInv, Bool.and_eq_true, beq_iff_eq] at hs
  obtain ⟨⟨⟨⟨⟨hmr, hmh⟩, hmc⟩, hr⟩, hh2⟩, hc2⟩ := hs
  cases i <;>
    simp only [SysInv, Sys.setPanel, Sys.panel, Bool.and_eq_true, beq_iff_eq] at hm ⊢
  · exact ⟨⟨⟨⟨⟨hm.trans hmr, hmh⟩, hmc⟩, hv⟩, hh2⟩, hc2⟩
  · exact ⟨⟨⟨⟨⟨hmr, hm.trans hmh⟩, hmc⟩, hr⟩, hv⟩, hc2⟩
  · exact ⟨⟨⟨⟨⟨hmr, hmh⟩, hm.trans hmc⟩, hr⟩, hh2⟩, hv⟩

theorem expand_colors (i : PIdx) (c : QColor) (hc : Color8 c) :
    ∀ j c', SigCall.upd j c' ∈ expandEmission i c → Color8 c' := by
  intro j c' hm
  cases i <;> simp [expandEmission, ringTargets] at hm <;>
    rcases hm with ⟨-, rfl⟩ | ⟨-, rfl⟩ <;> exact hc

/-- A user edit preserves the system invariant (whatever the fuel, the
edited text, or the validity outcome). -/
theorem userEdit_inv (fuel : Nat) (s : Sys) (i : PIdx) (k : Nat) (t : String) (s' : Sys)
    (hs : SysInv s = true) (h : Sys.userEdit fuel s i k t = some s') :
    SysInv s' = true := by
  simp only [Sys.userEdit] at h
  obtain ⟨ti1, ti2, ti3⟩ := textInput_spec (s.panel i) k t (panel_inv s hs i)
  have hs1 : SysInv (s.setPanel i ((s.panel i).textInput k t).1) = true :=
    setPanel_inv s i _ hs ti1 ti2
  cases hr2 : ((s.panel i).textInput k t).2 with
  | none =>
    rw [hr2] at h
    cases h
    exact hs1
  | some c =>
    rw [hr2] at h
    have hc8 : Color8 c := by
      rw [ti3 c hr2]
      exact (get_color_Color8 _ ti1).1
    exact dispatch_inv fuel _ _ hs1 (expand_colors i c hc8) s' h

/-- Edit completion preserves the system invariant. -/
theorem userFinish_inv (fuel : Nat) (s : Sys) (i : PIdx) (k : Nat) (s' : Sys)
    (hs : SysInv s = true) (h : Sys.userFinish fuel s i k = some s') :
    SysInv s' = true := by
  simp only [Sys.userFinish] at h
  obtain ⟨ti1, ti2, ti3⟩ := finishAt_spec (s.panel i) k (panel_inv s hs i)
  have hs1 : SysInv (s.setPanel i ((s.panel i).finishAt k).1) = true :=
    setPanel_inv s i _ hs ti1 ti2
  cases hr2 : ((s.panel i).finishAt k).2 with
  | none =>
    rw [hr2] at h
    cases h
    exact hs1
  | some c =>
    rw [hr2] at h
    have hc8 : Color8 c := by
      rw [ti3 c hr2]
      exact (get_color_Color8 _ ti1).1
    exact dispatch_inv fuel _ _ hs1 (expand_colors i c hc8) s' h

theorem DialogResult_Color8 (c : QColor) (h : DialogResult c) : Color8 c := by
  rcases h with rfl | ⟨r, g, b, h1, h2, h3, h4, h5, h6, rfl⟩
  · exact Or.inl rfl
  · unfold mkRgb
    rw [if_pos ⟨h1, h2, h3, h4, h5, h6⟩]
    exact Or.inr (Or.inl ⟨65535, r.toNat, g.toNat, b.toNat, by omega, by omega,
      by omega, rfl⟩)

/-- Full characterization of pick_color with any dialog outcome that
is a program color: it always succeeds, pushes the dialog color into
every panel exactly once, restyles the swatch from it — and leaves the
recorded current color untouched. -/
theorem pick_color_spec (fuel : Nat) (s : Sys) (dlg : QColor) (hs : SysInv s = true)
    (hd : Color8 dlg) :
    ∃ s', Sys.pick_color fuel s dlg = some s' ∧ SysInv s' = true ∧
      s'.color = s.color ∧ s'.label = change_label_color_str dlg ∧
      (∀ j, s'.countOf j = s.countOf j + 1) ∧
      (∀ j, s'.recvsOf j = s.recvsOf j ++ [dlg]) := by
  obtain ⟨e1, i1, c1, l1, n1, r1⟩ := applyUpdate_spec s .pRGB dlg hs hd
  obtain ⟨e2, i2, c2, l2, n2, r2⟩ :=
    applyUpdate_spec (s.applyUpdate .pRGB dlg).1 .pHSV dlg i1 hd
  obtain ⟨e3, i3, c3, l3, n3, r3⟩ :=
    applyUpdate_spec ((s.applyUpdate .pRGB dlg).1.applyUpdate .pHSV dlg).1 .pCMYK dlg i2 hd
  refine ⟨{ (((s.applyUpdate .pRGB dlg).1.applyUpdate .pHSV dlg).1.applyUpdate
      .pCMYK dlg).1 with label := change_label_color_str dlg },
    ?_, i3, c3.trans (c2.trans c1), rfl, ?_, ?_⟩
  · unfold Sys.pick_color
    simp only [e1, List.map_nil, List.flatten_nil, dispatch, Bind.bind, Option.bind, e2, e3]
    try rfl
  · intro j
    rw [show Sys.countOf { (((s.applyUpdate .pRGB dlg).1.applyUpdate .pHSV dlg).1.applyUpdate
        .pCMYK dlg).1 with label := change_label_color_str dlg } j =
      Sys.countOf (((s.applyUpdate .pRGB dlg).1.applyUpdate .pHSV dlg).1.applyUpdate
        .pCMYK dlg).1 j from rfl, n3 j, n2 j, n1 j]
    cases j <;> simp
  · intro j
    rw [show Sys.recvsOf { (((s.applyUpdate .pRGB dlg).1.applyUpdate .pHSV dlg).1.applyUpdate
        .pCMYK dlg).1 with label := change_label_color_str dlg } j =
      Sys.recvsOf (((s.applyUpdate .pRGB dlg).1.applyUpdate .pHSV dlg).1.applyUpdate
        .pCMYK dlg).1 j from rfl, r3 j, r2 j, r1 j]
    cases j <;> simp

/-- The invariant holds in every reachable state. -/
theorem SysInv_reachable (s : Sys) (h : Reachable s) : SysInv s = true := by
  induction h with
  | refl => decide
  | tail _ hstep ih =>
    cases hstep with
    | edit fuel i k t sp he => exact userEdit_inv fuel _ i k t _ ih he
    | finish fuel i k sp he => exact userFinish_inv fuel _ i k _ ih he
    | pick fuel dlg sp hd he =>
      obtain ⟨s2, he2, hinv, -, -, -, -⟩ :=
        pick_color_spec fuel _ dlg ih (DialogResult_Color8 dlg hd)
      rw [he] at he2
      cases he2
      exact hinv


theorem setPanel_ghost (s : Sys) (i : PIdx) (v : Valuer) :
    (∀ j, (s.setPanel i v).countOf j = s.countOf j) ∧
    (∀ j, (s.setPanel i v).recvsOf j = s.recvsOf j) ∧
    (s.setPanel i v).color = s.color ∧ (s.setPanel i v).label = s.label := by
  cases i <;>
    exact ⟨fun j => by cases j <;> rfl, fun j => by cases j <;> rfl, rfl, rfl⟩

/-- A user edit whose textChanged fires: the full synchronous
propagation settles in one round.  The emitted color is the editing
panel's freshly composed color; each sibling panel receives exactly
one update carrying it, the originating panel none; the coordinator
records it and restyles the swatch. -/
theorem userEdit_fired_spec (fuel : Nat) (s : Sys) (i : PIdx) (k : Nat) (t : String)
    (c : QColor) (hf : 3 ≤ fuel) (hs : SysInv s = true)
    (hfire : ((s.panel i).textInput k t).2 = some c) :
    c = ((s.panel i).textInput k t).1.get_color ∧
    ∃ s', Sys.userEdit fuel s i k t = some s' ∧ SysInv s' = true ∧
      s'.color = c ∧ s'.label = change_label_color_str c ∧
      (∀ j, s'.countOf j = s.countOf j + (if j = i then 0 else 1)) ∧
      (∀ j, s'.recvsOf j = s.recvsOf j ++ (if j = i then [] else [c])) := by
  obtain ⟨ti1, ti2, ti3⟩ := textInput_spec (s.panel i) k t (panel_inv s hs i)
  have hceq := ti3 c hfire
  have hs1 : SysInv (s.setPanel i ((s.panel i).textInput k t).1) = true :=
    setPanel_inv s i _ hs ti1 ti2
  have hc8 : Color8 c := by
    rw [hceq]
    exact (get_color_Color8 _ ti1).1
  obtain ⟨s2, hd2, hi2, hc2, hl2, hn2, hr2⟩ :=
    dispatch_expand fuel (s.setPanel i ((s.panel i).textInput k t).1) i c hf hs1 hc8
  have hrun : Sys.userEdit fuel s i k t =
      dispatch fuel (s.setPanel i ((s.panel i).textInput k t).1) (expandEmission i c) := by
    simp only [Sys.userEdit, hfire]
  obtain ⟨gc, gr, -, -⟩ := setPanel_ghost s i ((s.panel i).textInput k t).1
  refine ⟨hceq, s2, hrun.trans hd2, hi2, hc2, hl2, fun j => ?_, fun j => ?_⟩
  · rw [hn2 j, gc j]
  · rw [hr2 j, gr j]


/-! ## Remaining facets of the invariant, exposed for the claims -/

theorem ValuerInv_unblocked (v : Valuer) (hv : ValuerInv v = true) : v.blocked = false := by
  simp only [ValuerInv, Bool.and_eq_true, Bool.not_eq_true'] at hv
  exact hv.1

theorem ValuerInv_field_bounds (v : Valuer) (hv : ValuerInv v = true) :
    ∀ f ∈ v.fields, (f.lo ≤ f.value ∧ f.value ≤ f.hi) ∨ (v.model = .HSVm ∧ f.value = -1) := by
  obtain ⟨mdl, flds, bl⟩ := v
  cases mdl <;>
    [rcases flds with _ | ⟨f0, _ | ⟨f1, _ | ⟨f2, _ | ⟨f3, rest⟩⟩⟩⟩;
     rcases flds with _ | ⟨f0, _ | ⟨f1, _ | ⟨f2, _ | ⟨f3, rest⟩⟩⟩⟩;
     rcases flds with _ | ⟨f0, _ | ⟨f1, _ | ⟨f2, _ | ⟨f3, _ | ⟨f4, rest⟩⟩⟩⟩⟩] <;>
    simp only [ValuerInv, Bool.and_eq_true, Bool.not_eq_true', Bool.and_false,
      Bool.false_eq_true, and_false, false_and] at hv <;>
    intro f hf
  · obtain ⟨-, ⟨hF0, hF1⟩, hF2⟩ := hv
    obtain ⟨h1, h2, h3, h4, -⟩ := (FieldB_iff _ _ _ f0).mp hF0
    obtain ⟨g1, g2, g3, g4, -⟩ := (FieldB_iff _ _ _ f1).mp hF1
    obtain ⟨e1, e2, e3, e4, -⟩ := (FieldB_iff _ _ _ f2).mp hF2
    simp only [List.mem_cons, List.not_mem_nil, or_false] at hf
    rcases hf with rfl | rfl | rfl
    · exact Or.inl ⟨by omega, by omega⟩
    · exact Or.inl ⟨by omega, by omega⟩
    · exact Or.inl ⟨by omega, by omega⟩
  · obtain ⟨-, ⟨hF0, hF1⟩, hF2⟩ := hv
    obtain ⟨h1, h2, h3, h4, -⟩ := (FieldB_iff _ _ _ f0).mp hF0
    obtain ⟨g1, g2, g3, g4, -⟩ := (FieldB_iff _ _ _ f1).mp hF1
    obtain ⟨e1, e2, e3, e4, -⟩ := (FieldB_iff _ _ _ f2).mp hF2
    simp only [List.mem_cons, List.not_mem_nil, or_false] at hf
    rcases hf with rfl | rfl | rfl
    · rcases le_or_lt 0 f.value with hge | hlt
      · exact Or.inl ⟨by omega, by omega⟩
      · exact Or.inr ⟨rfl, by omega⟩
    · exact Or.inl ⟨by omega, by omega⟩
    · exact Or.inl ⟨by omega, by omega⟩
  · obtain ⟨-, ⟨⟨hF0, hF1⟩, hF2⟩, hF3⟩ := hv
    obtain ⟨h1, h2, h3, h4, -⟩ := (FieldB_iff _ _ _ f0).mp hF0
    obtain ⟨g1, g2, g3, g4, -⟩ := (FieldB_iff _ _ _ f1).mp hF1
    obtain ⟨e1, e2, e3, e4, -⟩ := (FieldB_iff _ _ _ f2).mp hF2
    obtain ⟨d1, d2, d3, d4, -⟩ := (FieldB_iff _ _ _ f3).mp hF3
    simp only [List.mem_cons, List.not_mem_nil, or_false] at hf
    rcases hf with rfl | rfl | rfl | rfl
    · exact Or.inl ⟨by omega, by omega⟩
    · exact Or.inl ⟨by omega, by omega⟩
    · exact Or.inl ⟨by omega, by omega⟩
    · exact Or.inl ⟨by omega, by omega⟩

theorem ValuerInv_bounded_faithful (v : Valuer) (hv : ValuerInv v = true) :
    ∀ f ∈ v.fields, f.bounded = int_bounds f.lo f.hi f.text := by
  obtain ⟨mdl, flds, bl⟩ := v
  cases mdl <;>
    [rcases flds with _ | ⟨f0, _ | ⟨f1, _ | ⟨f2, _ | ⟨f3, rest⟩⟩⟩⟩;
     rcases flds with _ | ⟨f0, _ | ⟨f1, _ | ⟨f2, _ | ⟨f3, rest⟩⟩⟩⟩;
     rcases flds with _ | ⟨f0, _ | ⟨f1, _ | ⟨f2, _ | ⟨f3, _ | ⟨f4, rest⟩⟩⟩⟩⟩] <;>
    simp only [ValuerInv, Bool.and_eq_true, Bool.not_eq_true', Bool.and_false,
      Bool.false_eq_true, and_false, false_and] at hv <;>
    intro f hf
  · obtain ⟨-, ⟨hF0, hF1⟩, hF2⟩ := hv
    obtain ⟨h1, h2, -, -, h5⟩ := (FieldB_iff _ _ _ f0).mp hF0
    obtain ⟨g1, g2, -, -, g5⟩ := (FieldB_iff _ _ _ f1).mp hF1
    obtain ⟨e1, e2, -, -, e5⟩ := (FieldB_iff _ _ _ f2).mp hF2
    simp only [List.mem_cons, List.not_mem_nil, or_false] at hf
    rcases hf with rfl | rfl | rfl
    · rw [h1, h2, h5]
    · rw [g1, g2, g5]
    · rw [e1, e2, e5]
  · obtain ⟨-, ⟨hF0, hF1⟩, hF2⟩ := hv
    obtain ⟨h1, h2, -, -, h5⟩ := (FieldB_iff _ _ _ f0).mp hF0
    obtain ⟨g1, g2, -, -, g5⟩ := (FieldB_iff _ _ _ f1).mp hF1
    obtain ⟨e1, e2, -, -, e5⟩ := (FieldB_iff _ _ _ f2).mp hF2
    simp only [List.mem_cons, List.not_mem_nil, or_false] at hf
    rcases hf with rfl | rfl | rfl
    · rw [h1, h2, h5]
    · rw [g1, g2, g5]
    · rw [e1, e2, e5]
  · obtain ⟨-, ⟨⟨hF0, hF1⟩, hF2⟩, hF3⟩ := hv
    obtain ⟨h1, h2, -, -, h5⟩ := (FieldB_iff _ _ _ f0).mp hF0
    obtain ⟨g1, g2, -, -, g5⟩ := (FieldB_iff _ _ _ f1).mp hF1
    obtain ⟨e1, e2, -, -, e5⟩ := (FieldB_iff _ _ _ f2).mp hF2
    obtain ⟨d1, d2, -, -, d5⟩ := (FieldB_iff _ _ _ f3).mp hF3
    simp only [List.mem_cons, List.not_mem_nil, or_false] at hf
    rcases hf with rfl | rfl | rfl | rfl
    · rw [h1, h2, h5]
    · rw [g1, g2, g5]
    · rw [e1, e2, e5]
    · rw [d1, d2, d5]


/-! ## The claims -/

/-- C1: the spec requires that cancelling the color-selection dialog
leaves every panel and the swatch unchanged (a no-op, not black).  The
code violates this: pick_color never checks the dialog result for
validity, so the invalid color returned on cancel (which reads as
black through the rgb accessors) is pushed into every panel and the
swatch is restyled to black. -/
theorem C1_cancel_treated_as_black :
    DialogResult qcInvalid ∧
    ∃ s', Sys.pick_color 9 initSys qcInvalid = some s' ∧
      s'.rgbP.fields.map Field.text = ["0", "0", "0"] ∧
      initSys.rgbP.fields.map Field.text = ["255", "0", "255"] ∧
      s'.label = change_label_color_str qcInvalid ∧
      s'.label ≠ initSys.label ∧
      change_label_color_str qcInvalid =
        "border: 2px solid black;background-color: rgb(0, 0, 0);" := by
  refine ⟨Or.inl rfl, (Sys.pick_color 9 initSys qcInvalid).getD initSys, ?_⟩
  decide

/-- C2 (counterexample): after one reachable edit (typing 255 into the
RGB green field of the startup state, making the color white), the HSV
panel's hue field holds the committed value -1, strictly below the
declared lower bound 0 of the hue channel. -/
theorem C2_counterexample :
    ∃ s', Sys.userEdit 9 initSys .pRGB 1 "255" = some s' ∧ Reachable s' ∧
      s'.hsvP.fields.map Field.get_value = [-1, 0, 255] ∧
      channelBounds .HSVm = [(0, 359), (0, 255), (0, 255)] ∧ ¬ (0 ≤ (-1 : Int)) := by
  refine ⟨(Sys.userEdit 9 initSys .pRGB 1 "255").getD initSys, by decide, ?_, by decide,
    rfl, by norm_num⟩
  exact Relation.ReflTransGen.single (Step.edit 9 .pRGB 1 "255" _ (by decide))

/-- C2 (amended): in every reachable state every field's committed
value lies within its channel's declared bounds, except that the HSV
hue field may also hold -1 (committed by update_color when the
incoming color is achromatic, since QColor.hue() returns -1 there);
with that sole relaxation the invariant holds after every operation,
and composing a panel's variant from its committed values still never
yields an invalid color (set_hsv accepts hue -1). -/
theorem C2_amended_invariant (s : Sys) (h : Reachable s) :
    SysInv s = true ∧
    (∀ i, ∀ f ∈ (s.panel i).fields,
      (f.lo ≤ f.value ∧ f.value ≤ f.hi) ∨ ((s.panel i).model = .HSVm ∧ f.value = -1)) ∧
    (∀ i, (s.panel i).get_color ≠ qcInvalid) := by
  have hs := SysInv_reachable s h
  exact ⟨hs, fun i => ValuerInv_field_bounds _ (panel_inv s hs i),
    fun i => (get_color_Color8 _ (panel_inv s hs i)).2⟩

/-- C2 (witness): the amended invariant instantiated at the startup
state. -/
theorem C2_witness :
    Reachable initSys ∧
    (SysInv initSys = true ∧
    (∀ i, ∀ f ∈ (initSys.panel i).fields,
      (f.lo ≤ f.value ∧ f.value ≤ f.hi) ∨
        ((initSys.panel i).model = .HSVm ∧ f.value = -1)) ∧
    (∀ i, (initSys.panel i).get_color ≠ qcInvalid)) :=
  ⟨Relation.ReflTransGen.refl, C2_amended_invariant initSys Relation.ReflTransGen.refl⟩


/-- C3: from any reachable state, a user edit of one field of one
panel whose textChanged fires propagates in a single synchronous
round: each of the other two panels has update_color invoked exactly
once, carrying exactly the originating panel's freshly composed
(equivalent) color, and the originating panel receives no update back
(its invocation count and received-color log are unchanged). -/
theorem C3_one_round_propagation (fuel : Nat) (s : Sys) (i : PIdx) (k : Nat) (t : String)
    (c : QColor) (hf : 3 ≤ fuel) (hr : Reachable s)
    (hfire : ((s.panel i).textInput k t).2 = some c) :
    c = ((s.panel i).textInput k t).1.get_color ∧
    ∃ s', Sys.userEdit fuel s i k t = some s' ∧
      s'.countOf i = s.countOf i ∧ s'.recvsOf i = s.recvsOf i ∧
      (∀ j, j ≠ i → s'.countOf j = s.countOf j + 1 ∧ s'.recvsOf j = s.recvsOf j ++ [c]) := by
  have hs := SysInv_reachable s hr
  obtain ⟨hceq, s', h1, -, -, -, hn, hrv⟩ := userEdit_fired_spec fuel s i k t c hf hs hfire
  refine ⟨hceq, s', h1, ?_, ?_, fun j hj => ⟨?_, ?_⟩⟩
  · rw [hn i]
    simp
  · rw [hrv i]
    simp
  · rw [hn j]
    simp [hj]
  · rw [hrv j]
    simp [hj]

/-- C3 (witness): editing the RGB green field of the startup state to
7 fires and propagates the color RGB(255, 7, 255) exactly once to each
of the HSV and CMYK panels. -/
theorem C3_witness :
    (3 ≤ (9 : Nat)) ∧ Reachable initSys ∧
    ((initSys.panel .pRGB).textInput 1 "7").2 = some (mkRgb 255 7 255) ∧
    (mkRgb 255 7 255 = ((initSys.panel .pRGB).textInput 1 "7").1.get_color ∧
     ∃ s', Sys.userEdit 9 initSys .pRGB 1 "7" = some s' ∧
      s'.countOf .pRGB = initSys.countOf .pRGB ∧
      s'.recvsOf .pRGB = initSys.recvsOf .pRGB ∧
      (∀ j, j ≠ .pRGB → s'.countOf j = initSys.countOf j + 1 ∧
        s'.recvsOf j = initSys.recvsOf j ++ [mkRgb 255 7 255])) :=
  ⟨by norm_num, Relation.ReflTransGen.refl, by decide,
    C3_one_round_propagation 9 initSys .pRGB 1 "7" (mkRgb 255 7 255) (by norm_num)
      Relation.ReflTransGen.refl (by decide)⟩

/-- C4 (counterexample): apply_external_color does not leave every
field valid: pushing white into a fresh HSV panel commits hue -1,
whose text "-1" fails the hue bounder, leaving the hue field invalid
with a red border. -/
theorem C4_counterexample :
    ((Valuer.mk0 .HSVm).update_color (mkRgb 255 255 255)).1.fields.map Field.bounded =
      [false, true, true] ∧
    ((Valuer.mk0 .HSVm).update_color (mkRgb 255 255 255)).1.fields.map Field.border =
      [.red, .black, .black] := by
  constructor <;> decide

/-- C4 (amended): update_color on a well-formed panel with a program
color emits nothing (its own notifications are suppressed), writes
every field's committed value and displayed text from the wrapped
channels, and leaves each field's validity flag equal to the bounder's
verdict on the new text — valid for every representable channel value,
invalid exactly for the HSV hue field when the wrapped hue is -1. -/
theorem C4_amended_update_color (v : Valuer) (c : QColor) (hv : ValuerInv v = true)
    (hc : Color8 c) :
    (v.update_color c).2 = [] ∧
    (v.update_color c).1.fields.map Field.get_value = wrapChannels v.model c ∧
    (v.update_color c).1.fields.map Field.text = (wrapChannels v.model c).map toString ∧
    (∀ f ∈ (v.update_color c).1.fields, f.bounded = int_bounds f.lo f.hi f.text) := by
  obtain ⟨h1, h2, -, h4, h5⟩ := update_color_spec v c hv hc
  exact ⟨h1, h4, h5, ValuerInv_bounded_faithful _ h2⟩

/-- C4 (witness): the amended theorem at a fresh RGB panel and the
startup magenta. -/
theorem C4_witness :
    ValuerInv (Valuer.mk0 .RGBm) = true ∧ Color8 magentaQ ∧
    (((Valuer.mk0 .RGBm).update_color magentaQ).2 = [] ∧
     ((Valuer.mk0 .RGBm).update_color magentaQ).1.fields.map Field.get_value =
       wrapChannels (Valuer.mk0 .RGBm).model magentaQ ∧
     ((Valuer.mk0 .RGBm).update_color magentaQ).1.fields.map Field.text =
       (wrapChannels (Valuer.mk0 .RGBm).model magentaQ).map toString ∧
     (∀ f ∈ ((Valuer.mk0 .RGBm).update_color magentaQ).1.fields,
       f.bounded = int_bounds f.lo f.hi f.text)) := by
  have hc : Color8 magentaQ :=
    Or.inr (Or.inl ⟨65535, 255, 0, 255, by norm_num, by norm_num, by norm_num, by decide⟩)
  exact ⟨by decide, hc, C4_amended_update_color (Valuer.mk0 .RGBm) magentaQ (by decide) hc⟩


/-- C5 (counterexample): generic white does not wrap to HSV(0, 0, 255)
but to HSV(-1, 0, 255) (QColor.hue() is -1 on achromatic colors), and
neither the HSV nor the CMYK wrap converts back to the same generic
color: the returned QColor carries the Hsv (resp. Cmyk) spec, which
differs structurally from the Rgb-spec white. -/
theorem C5_counterexample :
    HSV.wrap_color (mkRgb 255 255 255) = ⟨-1, 0, 255⟩ ∧
    HSV.wrap_color (mkRgb 255 255 255) ≠ ⟨0, 0, 255⟩ ∧
    (HSV.wrap_color (mkRgb 255 255 255)).get_color ≠ mkRgb 255 255 255 ∧
    (CMYK.wrap_color (mkRgb 255 255 255)).get_color ≠ mkRgb 255 255 255 := by
  refine ⟨?_, ?_, ?_, ?_⟩ <;> decide

/-- C5 (amended): only the RGB wrap round-trips to the identical
generic color (for every 8-bit color).  Generic white wraps to
HSV(-1, 0, 255); converting that back yields an Hsv-spec color that
agrees with white on the red/green/blue accessors but is not the same
QColor value. -/
theorem C5_amended_cross_model (r g b : Int) (h1 : 0 ≤ r) (h2 : r ≤ 255) (h3 : 0 ≤ g)
    (h4 : g ≤ 255) (h5 : 0 ≤ b) (h6 : b ≤ 255) :
    (RGB.wrap_color (mkRgb r g b)).get_color = mkRgb r g b ∧
    HSV.wrap_color (mkRgb 255 255 255) = ⟨-1, 0, 255⟩ ∧
    ((HSV.wrap_color (mkRgb 255 255 255)).get_color).red = 255 ∧
    ((HSV.wrap_color (mkRgb 255 255 255)).get_color).green = 255 ∧
    ((HSV.wrap_color (mkRgb 255 255 255)).get_color).blue = 255 ∧
    (HSV.wrap_color (mkRgb 255 255 255)).get_color ≠ mkRgb 255 255 255 := by
  refine ⟨?_, by decide, by decide, by decide, by decide, by decide⟩
  have hm : mkRgb r g b =
      ⟨.rgbS, 65535, 257 * r.toNat, 257 * g.toNat, 257 * b.toNat, 0⟩ := by
    unfold mkRgb
    rw [if_pos ⟨h1, h2, h3, h4, h5, h6⟩]
  rw [hm]
  have hw : RGB.wrap_color ⟨.rgbS, 65535, 257 * r.toNat, 257 * g.toNat, 257 * b.toNat, 0⟩ =
      ⟨(r.toNat : Int), (g.toNat : Int), (b.toNat : Int)⟩ := by
    unfold RGB.wrap_color
    show RGB.mk ((qt_div_257 (257 * r.toNat) : Nat) : Int)
      ((qt_div_257 (257 * g.toNat) : Nat) : Int)
      ((qt_div_257 (257 * b.toNat) : Nat) : Int) = _
    rw [qt_div_257_mul r.toNat (by omega), qt_div_257_mul g.toNat (by omega),
      qt_div_257_mul b.toNat (by omega)]
  rw [hw]
  show mkRgb (r.toNat : Int) (g.toNat : Int) (b.toNat : Int) = _
  unfold mkRgb
  rw [if_pos (by omega)]
  simp
  omega

/-- C5 (witness): the amended theorem at the color (1, 2, 3). -/
theorem C5_witness :
    ((0 ≤ (1 : Int)) ∧ (1 : Int) ≤ 255 ∧ (0 ≤ (2 : Int)) ∧ (2 : Int) ≤ 255 ∧
      (0 ≤ (3 : Int)) ∧ (3 : Int) ≤ 255) ∧
    ((RGB.wrap_color (mkRgb 1 2 3)).get_color = mkRgb 1 2 3 ∧
     HSV.wrap_color (mkRgb 255 255 255) = ⟨-1, 0, 255⟩ ∧
     ((HSV.wrap_color (mkRgb 255 255 255)).get_color).red = 255 ∧
     ((HSV.wrap_color (mkRgb 255 255 255)).get_color).green = 255 ∧
     ((HSV.wrap_color (mkRgb 255 255 255)).get_color).blue = 255 ∧
     (HSV.wrap_color (mkRgb 255 255 255)).get_color ≠ mkRgb 255 255 255) :=
  ⟨by norm_num, C5_amended_cross_model 1 2 3 (by norm_num) (by norm_num) (by norm_num)
    (by norm_num) (by norm_num) (by norm_num)⟩


/-- C6: for every variant whose channel values lie within the declared
ranges, converting to the generic color and wrapping back yields a
structurally equal variant: the round trip through QColor is lossless
within each single model. -/
theorem C6_wrap_to_generic_roundtrip (r g b h s v cc m y k : Int)
    (hr1 : 0 ≤ r) (hr2 : r ≤ 255) (hg1 : 0 ≤ g) (hg2 : g ≤ 255)
    (hb1 : 0 ≤ b) (hb2 : b ≤ 255)
    (hh1 : 0 ≤ h) (hh2 : h ≤ 359) (hs1 : 0 ≤ s) (hs2 : s ≤ 255)
    (hv1 : 0 ≤ v) (hv2 : v ≤ 255)
    (hc1 : 0 ≤ cc) (hc2 : cc ≤ 255) (hm1 : 0 ≤ m) (hm2 : m ≤ 255)
    (hy1 : 0 ≤ y) (hy2 : y ≤ 255) (hk1 : 0 ≤ k) (hk2 : k ≤ 255) :
    RGB.wrap_color ((RGB.mk r g b).get_color) = RGB.mk r g b ∧
    HSV.wrap_color ((HSV.mk h s v).get_color) = HSV.mk h s v ∧
    CMYK.wrap_color ((CMYK.mk cc m y k).get_color) = CMYK.mk cc m y k := by
  refine ⟨?_, ?_, ?_⟩
  · have e1 : (RGB.mk r g b).get_color = (⟨.rgbS, 65535, 257 * r.toNat, 257 * g.toNat, 257 * b.toNat, 0⟩ : QColor) := by
      unfold RGB.get_color mkRgb
      rw [if_pos ⟨hr1, hr2, hg1, hg2, hb1, hb2⟩]
    have c1 : QColor.red (⟨.rgbS, 65535, 257 * r.toNat, 257 * g.toNat, 257 * b.toNat, 0⟩ : QColor) = r.toNat := qt_div_257_mul r.toNat (by omega)
    have c2 : QColor.green (⟨.rgbS, 65535, 257 * r.toNat, 257 * g.toNat, 257 * b.toNat, 0⟩ : QColor) = g.toNat := qt_div_257_mul g.toNat (by omega)
    have c3 : QColor.blue (⟨.rgbS, 65535, 257 * r.toNat, 257 * g.toNat, 257 * b.toNat, 0⟩ : QColor) = b.toNat := qt_div_257_mul b.toNat (by omega)
    rw [e1]
    unfold RGB.wrap_color
    rw [c1, c2, c3]
    simp only [RGB.mk.injEq]
    omega
  · have e2 : (HSV.mk h s v).get_color = (⟨.hsvS, 65535, 100 * (h.toNat % 360), 257 * s.toNat, 257 * v.toNat, 0⟩ : QColor) := by
      unfold HSV.get_color mkHsv
      rw [if_neg (show ¬(h < -1 ∨ s < 0 ∨ 255 < s ∨ v < 0 ∨ 255 < v) by omega),
        if_neg (show ¬(h = -1) by omega)]
    have c1 : QColor.hue (⟨.hsvS, 65535, 100 * (h.toNat % 360), 257 * s.toNat, 257 * v.toNat, 0⟩ : QColor) = h := by
      show (if (100 * (h.toNat % 360) : Nat) = 65535 then (-1 : Int)
        else ((100 * (h.toNat % 360) / 100 : Nat) : Int)) = h
      rw [if_neg (by omega)]
      omega
    have c2 : QColor.saturation (⟨.hsvS, 65535, 100 * (h.toNat % 360), 257 * s.toNat, 257 * v.toNat, 0⟩ : QColor) = s.toNat := qt_div_257_mul s.toNat (by omega)
    have c3 : QColor.value (⟨.hsvS, 65535, 100 * (h.toNat % 360), 257 * s.toNat, 257 * v.toNat, 0⟩ : QColor) = v.toNat := qt_div_257_mul v.toNat (by omega)
    rw [e2]
    unfold HSV.wrap_color
    rw [c1, c2, c3]
    simp only [HSV.mk.injEq, true_and]
    omega
  · have e3 : (CMYK.mk cc m y k).get_color = (⟨.cmykS, 65535, 257 * cc.toNat, 257 * m.toNat, 257 * y.toNat, 257 * k.toNat⟩ : QColor) := by
      unfold CMYK.get_color mkCmyk
      rw [if_neg (show ¬(cc < 0 ∨ 255 < cc ∨ m < 0 ∨ 255 < m ∨ y < 0 ∨ 255 < y ∨
        k < 0 ∨ 255 < k) by omega)]
    have c1 : QColor.cyan (⟨.cmykS, 65535, 257 * cc.toNat, 257 * m.toNat, 257 * y.toNat, 257 * k.toNat⟩ : QColor) = cc.toNat := qt_div_257_mul cc.toNat (by omega)
    have c2 : QColor.magenta (⟨.cmykS, 65535, 257 * cc.toNat, 257 * m.toNat, 257 * y.toNat, 257 * k.toNat⟩ : QColor) = m.toNat := qt_div_257_mul m.toNat (by omega)
    have c3 : QColor.yellow (⟨.cmykS, 65535, 257 * cc.toNat, 257 * m.toNat, 257 * y.toNat, 257 * k.toNat⟩ : QColor) = y.toNat := qt_div_257_mul y.toNat (by omega)
    have c4 : QColor.black (⟨.cmykS, 65535, 257 * cc.toNat, 257 * m.toNat, 257 * y.toNat, 257 * k.toNat⟩ : QColor) = k.toNat := qt_div_257_mul k.toNat (by omega)
    rw [e3]
    unfold CMYK.wrap_color
    rw [c1, c2, c3, c4]
    simp only [CMYK.mk.injEq]
    omega

/-- C6 (witness): the round trip at RGB(10, 20, 30), HSV(300, 40, 50)
and CMYK(60, 70, 80, 90). -/
theorem C6_witness :
    RGB.wrap_color ((RGB.mk 10 20 30).get_color) = RGB.mk 10 20 30 ∧
    HSV.wrap_color ((HSV.mk 300 40 50).get_color) = HSV.mk 300 40 50 ∧
    CMYK.wrap_color ((CMYK.mk 60 70 80 90).get_color) = CMYK.mk 60 70 80 90 :=
  C6_wrap_to_generic_roundtrip 10 20 30 300 40 50 60 70 80 90
    (by norm_num) (by norm_num) (by norm_num) (by norm_num) (by norm_num) (by norm_num)
    (by norm_num) (by norm_num) (by norm_num) (by norm_num) (by norm_num) (by norm_num)
    (by norm_num) (by norm_num) (by norm_num) (by norm_num) (by norm_num) (by norm_num)
    (by norm_num) (by norm_num)


/-- C7: for every channel of every model, the bounds predicate accepts
exactly the texts that parse as an integer within the channel's
declared range: it rejects non-numeric text, accepts the decimal
rendering of every integer from the lower to the upper bound
inclusive, and rejects the rendering of every integer outside; in
particular the RGB red predicate rejects "256", "-1" and "abc" and
accepts "0" and "255", and the HSV hue predicate rejects "360" and
accepts "0" and "359". -/
theorem C7_bounds_predicate (mo : ModelType) (p : Int × Int) (hp : p ∈ channelBounds mo) :
    (∀ t : String, int_bounds p.1 p.2 t = true ↔
      ∃ w, pyParseInt t = some w ∧ p.1 ≤ w ∧ w ≤ p.2) ∧
    (∀ w : Int, p.1 ≤ w → w ≤ p.2 → int_bounds p.1 p.2 (toString w) = true) ∧
    (∀ w : Int, -1 ≤ w → w ≤ 660 → (w < p.1 ∨ p.2 < w) →
      int_bounds p.1 p.2 (toString w) = false) ∧
    int_bounds 0 255 "256" = false ∧ int_bounds 0 255 "-1" = false ∧
    int_bounds 0 255 "abc" = false ∧ int_bounds 0 255 "0" = true ∧
    int_bounds 0 255 "255" = true ∧ int_bounds 0 359 "360" = false ∧
    int_bounds 0 359 "0" = true ∧ int_bounds 0 359 "359" = true := by
  have hball : ∀ q ∈ channelBounds mo, 0 ≤ q.1 ∧ q.2 ≤ 359 := by
    cases mo <;> decide
  have hb : 0 ≤ p.1 ∧ p.2 ≤ 359 := hball p hp
  refine ⟨fun t => int_bounds_iff p.1 p.2 t, ?_, ?_, by decide, by decide, by decide,
    by decide, by decide, by decide, by decide, by decide⟩
  · intro w hw1 hw2
    rw [int_bounds_toString _ _ w (by omega) (by omega)]
    simp only [decide_eq_true_eq]
    exact ⟨hw1, hw2⟩
  · intro w hw1 hw2 hout
    rw [int_bounds_toString _ _ w hw1 hw2]
    simp only [decide_eq_false_iff_not]
    omega

/-- C7 (witness): the characterization at the RGB red channel. -/
theorem C7_witness :
    ((0 : Int), (255 : Int)) ∈ channelBounds .RGBm ∧
    ((∀ t : String, int_bounds 0 255 t = true ↔
       ∃ w, pyParseInt t = some w ∧ 0 ≤ w ∧ w ≤ 255) ∧
     (∀ w : Int, 0 ≤ w → w ≤ 255 → int_bounds 0 255 (toString w) = true) ∧
     (∀ w : Int, -1 ≤ w → w ≤ 660 → (w < 0 ∨ 255 < w) →
       int_bounds 0 255 (toString w) = false) ∧
     int_bounds 0 255 "256" = false ∧ int_bounds 0 255 "-1" = false ∧
     int_bounds 0 255 "abc" = false ∧ int_bounds 0 255 "0" = true ∧
     int_bounds 0 255 "255" = true ∧ int_bounds 0 359 "360" = false ∧
     int_bounds 0 359 "0" = true ∧ int_bounds 0 359 "359" = true) :=
  ⟨by decide, C7_bounds_predicate .RGBm ((0 : Int), (255 : Int)) (by decide)⟩


/-- C8: from any reachable state, an edit whose text fails the bounds
predicate turns the field invalid (flag false, red border), keeps its
committed numeric value, and the panel's change notification is still
emitted, carrying the color composed from all fields' last committed
values. -/
theorem C8_invalid_input_still_emits (s : Sys) (i : PIdx) (k : Nat) (t : String) (f : Field)
    (hr : Reachable s) (hf : (s.panel i).fields[k]? = some f) (hne : ¬ t = f.text)
    (hbad : int_bounds f.lo f.hi t = false) :
    ((s.panel i).textInput k t).1.fields[k]? =
      some { f with text := t, bounded := false, border := .red } ∧
    ({ f with text := t, bounded := false, border := .red } : Field).value = f.value ∧
    ((s.panel i).textInput k t).2 = some (((s.panel i).textInput k t).1.get_color) := by
  have hv := panel_inv s (SysInv_reachable s hr) i
  have hbl := ValuerInv_unblocked _ hv
  have hk : k < (s.panel i).fields.length := by
    by_contra hcon
    push_neg at hcon
    rw [List.getElem?_eq_none hcon] at hf
    cases hf
  have hot : Field.on_text_changed { f with text := t } t =
      { f with text := t, bounded := false, border := .red } := by
    unfold Field.on_text_changed
    rw [if_neg (show ¬(int_bounds f.lo f.hi t = true) by simp [hbad])]
  have hst : Field.setText f t =
      ({ f with text := t, bounded := false, border := .red }, true) := by
    unfold Field.setText
    rw [if_neg hne, hot]
  have hti : (s.panel i).textInput k t =
      ((s.panel i).setField k { f with text := t, bounded := false, border := .red },
       ((s.panel i).setField k
          { f with text := t, bounded := false, border := .red }).afterFieldFired true) := by
    simp only [Valuer.textInput, hf, hst]
  refine ⟨?_, rfl, ?_⟩
  · rw [hti]
    exact List.getElem?_set_eq_of_lt _ hk
  · rw [hti]
    unfold Valuer.afterFieldFired
    rw [if_pos ⟨rfl, show ¬(((s.panel i).setField k
      { f with text := t, bounded := false, border := .red }).blocked = true) by
        simp [Valuer.setField, hbl]⟩]

/-- C8 (witness): typing "abc" into the RGB red field of the startup
state marks it invalid, keeps the committed 255, and still emits the
panel color. -/
theorem C8_witness :
    Reachable initSys ∧
    (initSys.panel .pRGB).fields[0]? =
      some ⟨0, 255, 255, "255", true, .black⟩ ∧
    ¬ "abc" = (⟨0, 255, 255, "255", true, .black⟩ : Field).text ∧
    int_bounds 0 255 "abc" = false ∧
    (((initSys.panel .pRGB).textInput 0 "abc").1.fields[0]? =
      some { (⟨0, 255, 255, "255", true, .black⟩ : Field) with
        text := "abc", bounded := false, border := .red } ∧
    ({ (⟨0, 255, 255, "255", true, .black⟩ : Field) with
        text := "abc", bounded := false, border := .red } : Field).value =
      (⟨0, 255, 255, "255", true, .black⟩ : Field).value ∧
    ((initSys.panel .pRGB).textInput 0 "abc").2 =
      some (((initSys.panel .pRGB).textInput 0 "abc").1.get_color)) :=
  ⟨Relation.ReflTransGen.refl, by decide, by decide, by decide,
    C8_invalid_input_still_emits initSys .pRGB 0 "abc" ⟨0, 255, 255, "255", true, .black⟩
      Relation.ReflTransGen.refl (by decide) (by decide) (by decide)⟩

/-- C9 (counterexample): edit completion does not always restore the
valid state.  After white is pushed into the HSV panel the hue field
holds value -1 with text "-1" and flag invalid; on_text_finished
pushes str(-1) back — the text does not change, so no revalidation
runs: the border is forced neutral but the validity flag stays false. -/
theorem C9_counterexample :
    ((Valuer.mk0 .HSVm).update_color (mkRgb 255 255 255)).1.fields[0]? =
      some ⟨0, 359, -1, "-1", false, .red⟩ ∧
    (Field.on_text_finished ⟨0, 359, -1, "-1", false, .red⟩).1.text =
      toString (-1 : Int) ∧
    (Field.on_text_finished ⟨0, 359, -1, "-1", false, .red⟩).1.border = .black ∧
    (Field.on_text_finished ⟨0, 359, -1, "-1", false, .red⟩).1.bounded = false := by
  refine ⟨?_, ?_, ?_, ?_⟩ <;> decide

/-- C9 (amended): on edit completion the displayed text becomes the
committed value's decimal rendering and the border is forced neutral;
the committed value is unchanged; the validity flag is re-derived from
the bounder on that rendering when the text changes, and kept as-is
when the text already equals it — so a field whose committed value is
itself out of bounds (the hue -1 case) stays flagged invalid.  (The
committed values arising in the program always lie in [-1, 359],
within the stated range.) -/
theorem C9_amended_finish (f : Field) (h1 : -1 ≤ f.value) (h2 : f.value ≤ 660) :
    (Field.on_text_finished f).1.text = toString f.value ∧
    (Field.on_text_finished f).1.border = .black ∧
    (Field.on_text_finished f).1.value = f.value ∧
    (Field.on_text_finished f).1.bounded =
      (if toString f.value = f.text then f.bounded
       else int_bounds f.lo f.hi (toString f.value)) := by
  unfold Field.on_text_finished Field.setText
  by_cases he : toString f.value = f.text
  · rw [if_pos he]
    exact ⟨he.symm, rfl, rfl, by rw [if_pos he]⟩
  · rw [if_neg he]
    unfold Field.on_text_changed
    by_cases h3 : int_bounds f.lo f.hi (toString f.value) = true
    · simp only [h3, if_true, pyParseInt_toString f.value h1 h2, Option.getD_some]
      exact ⟨trivial, trivial, trivial, by rw [if_neg he]⟩
    · have h3' : int_bounds f.lo f.hi (toString f.value) = false := by
        simpa using h3
      simp only [h3', Bool.false_eq_true, if_false]
      exact ⟨trivial, trivial, trivial, by rw [if_neg he]⟩

/-- C9 (witness): the amended behavior at the invalid hue field left
by an achromatic update. -/
theorem C9_witness :
    (-1 ≤ (⟨0, 359, -1, "-1", false, .red⟩ : Field).value ∧
      (⟨0, 359, -1, "-1", false, .red⟩ : Field).value ≤ 660) ∧
    ((Field.on_text_finished ⟨0, 359, -1, "-1", false, .red⟩).1.text =
      toString (⟨0, 359, -1, "-1", false, .red⟩ : Field).value ∧
    (Field.on_text_finished ⟨0, 359, -1, "-1", false, .red⟩).1.border = .black ∧
    (Field.on_text_finished ⟨0, 359, -1, "-1", false, .red⟩).1.value =
      (⟨0, 359, -1, "-1", false, .red⟩ : Field).value ∧
    (Field.on_text_finished ⟨0, 359, -1, "-1", false, .red⟩).1.bounded =
      (if toString (⟨0, 359, -1, "-1", false, .red⟩ : Field).value =
          (⟨0, 359, -1, "-1", false, .red⟩ : Field).text
       then (⟨0, 359, -1, "-1", false, .red⟩ : Field).bounded
       else int_bounds 0 359 (toString (⟨0, 359, -1, "-1", false, .red⟩ : Field).value))) :=
  ⟨⟨by norm_num, by norm_num⟩,
    C9_amended_finish ⟨0, 359, -1, "-1", false, .red⟩ (by norm_num) (by norm_num)⟩

/-- C10 (counterexample): pick_color never records the chosen color:
after picking black from the startup state the swatch is styled from
black but the coordinator's recorded color is still magenta, so the
recorded color no longer matches the swatch. -/
theorem C10_counterexample :
    ∃ s', Sys.pick_color 9 initSys (mkRgb 0 0 0) = some s' ∧
      s'.label = change_label_color_str (mkRgb 0 0 0) ∧
      s'.color = magentaQ ∧
      ¬ change_label_color_str s'.color = s'.label := by
  refine ⟨(Sys.pick_color 9 initSys (mkRgb 0 0 0)).getD initSys, ?_, ?_, ?_, ?_⟩ <;> decide

/-- C10 (amended): after a propagated panel edit the recorded color
equals the emitted color and the swatch is styled from the recorded
color (they agree); after pick_color the swatch is styled from the
dialog color but the recorded color is left unchanged, because the
panels' suppressed notifications never reach change_color_internally
and pick_color itself never assigns it. -/
theorem C10_amended_swatch_vs_color (fuel : Nat) (s : Sys) (i : PIdx) (k : Nat)
    (t : String) (c dlg : QColor) (hfu : 3 ≤ fuel) (hr : Reachable s)
    (hfire : ((s.panel i).textInput k t).2 = some c) (hd : DialogResult dlg) :
    (∃ s', Sys.userEdit fuel s i k t = some s' ∧
      s'.color = c ∧ s'.label = change_label_color_str s'.color) ∧
    (∃ s2, Sys.pick_color fuel s dlg = some s2 ∧
      s2.color = s.color ∧ s2.label = change_label_color_str dlg) := by
  have hs := SysInv_reachable s hr
  obtain ⟨-, s', h1, -, hc', hl', -, -⟩ := userEdit_fired_spec fuel s i k t c hfu hs hfire
  obtain ⟨s2, h2, -, hc2, hl2, -, -⟩ :=
    pick_color_spec fuel s dlg hs (DialogResult_Color8 dlg hd)
  exact ⟨⟨s', h1, hc', by rw [hl', hc']⟩, ⟨s2, h2, hc2, hl2⟩⟩

/-- C10 (witness): the amended theorem at the startup state, editing
the RGB green field to 7 and picking black. -/
theorem C10_witness :
    (3 ≤ (9 : Nat)) ∧ Reachable initSys ∧
    ((initSys.panel .pRGB).textInput 1 "7").2 = some (mkRgb 255 7 255) ∧
    DialogResult (mkRgb 0 0 0) ∧
    ((∃ s', Sys.userEdit 9 initSys .pRGB 1 "7" = some s' ∧
      s'.color = mkRgb 255 7 255 ∧ s'.label = change_label_color_str s'.color) ∧
    (∃ s2, Sys.pick_color 9 initSys (mkRgb 0 0 0) = some s2 ∧
      s2.color = initSys.color ∧ s2.label = change_label_color_str (mkRgb 0 0 0))) := by
  have hd : DialogResult (mkRgb 0 0 0) :=
    Or.inr ⟨0, 0, 0, by norm_num, by norm_num, by norm_num, by norm_num, by norm_num,
      by norm_num, rfl⟩
  exact ⟨by norm_num, Relation.ReflTransGen.refl, by decide, hd,
    C10_amended_swatch_vs_color 9 initSys .pRGB 1 "7" (mkRgb 255 7 255) (mkRgb 0 0 0)
      (by norm_num) Relation.ReflTransGen.refl (by decide) hd⟩

end ColorPicker
